import Mathlib

/-!
Verification development for the surface-scattering routine of the
dayz-blender-tools add-on (`src/operators/grass_placer.py`, operator
`DAYZ_OT_GenerateGrass`).

The scatter pass is embedded shallowly over exact rationals:

* Geometry (vectors, quaternions, triangles, world transforms) uses `ℚ`
  components.  Quantities that the host application (Blender's `bmesh` /
  `mathutils`) supplies to the add-on — per-face areas (`face.calc_area()`),
  unit face normals (`face.normal`) and the rotation part of the object's
  world matrix (`matrix_world.to_quaternion()`) — are modelled as data
  carried by the corresponding structures, with their documented invariants
  (areas nonnegative, normals unit or zero, rotation quaternion unit) taken
  as hypotheses where a theorem needs them.
* Python's global `random` generator, seeded once per pass with
  `random.seed(settings.distribution_seed)`, is modelled as a fixed draw
  stream `g : ℕ → ℚ` consumed sequentially from position 0.  CPython's
  `random.uniform(a, b)` is `a + (b - a) * random.random()`, and
  `random.random()` returns a value in `[0, 1)`; the stream is consumed one
  position per underlying `random()` call.  Each draw is additionally
  labelled with the kind of decision it feeds, so that the draw order of the
  pass is a provable artifact of the model.
* Floating point is replaced by exact rational arithmetic.  The only
  irrational operations reachable from the embedded code paths are
  `Vector.length` / `Vector.normalize`; `length > 0` is embedded as
  `0 < lengthSq` (equivalent, since `length = sqrt lengthSq`), and
  `normalize` uses `Rat.sqrt`, which agrees with the real square root on
  perfect squares — in particular on the unit and zero normals that the
  host guarantees.  The orientation mathematics of `create_grass_instance`
  (`rotation_difference`, `Matrix.Rotation(...).to_quaternion()`) is
  transcendental and is modelled separately over `ℝ` further below.
-/

namespace DayZGrass

unseal Rat.add Rat.mul Rat.sub Rat.inv

/-- Vector of three rational coordinates (mathutils `Vector`). -/
structure Vec3 where
  x : ℚ
  y : ℚ
  z : ℚ
deriving DecidableEq, Repr

instance : Add Vec3 := ⟨fun a b => ⟨a.x + b.x, a.y + b.y, a.z + b.z⟩⟩

instance : Sub Vec3 := ⟨fun a b => ⟨a.x - b.x, a.y - b.y, a.z - b.z⟩⟩

instance : SMul ℚ Vec3 := ⟨fun c v => ⟨c * v.x, c * v.y, c * v.z⟩⟩

instance : Zero Vec3 := ⟨⟨0, 0, 0⟩⟩

/-- Squared euclidean length of a vector. -/
def Vec3.lengthSq (v : Vec3) : ℚ := v.x * v.x + v.y * v.y + v.z * v.z

/-- Dot product. -/
def Vec3.dot (a b : Vec3) : ℚ := a.x * b.x + a.y * b.y + a.z * b.z

/-- Length of a mathutils vector.  `Rat.sqrt` is exact on perfect squares;
every vector whose length the embedded code inspects is unit or zero. -/
def Vec3.len (v : Vec3) : ℚ := Rat.sqrt v.lengthSq

/-- Embedding of mathutils `Vector.normalize` / `.normalized()`: divide by the
length, mapping the zero vector to itself. -/
def Vec3.normalize (v : Vec3) : Vec3 :=
  if v.len = 0 then v else (1 / v.len) • v

/-- Linear interpolation, mathutils `Vector.lerp`: `a.lerp(b, t) = a + t*(b-a)`. -/
def Vec3.lerp (a b : Vec3) (t : ℚ) : Vec3 := a + t • (b - a)

/-- Quaternion with rational components. -/
structure Quat where
  w : ℚ
  x : ℚ
  y : ℚ
  z : ℚ
deriving DecidableEq, Repr

/-- Hamilton product. -/
def Quat.mul (p q : Quat) : Quat :=
  ⟨p.w * q.w - p.x * q.x - p.y * q.y - p.z * q.z,
   p.w * q.x + p.x * q.w + p.y * q.z - p.z * q.y,
   p.w * q.y - p.x * q.z + p.y * q.w + p.z * q.x,
   p.w * q.z + p.x * q.y - p.y * q.x + p.z * q.w⟩

/-- Quaternion conjugate. -/
def Quat.conj (q : Quat) : Quat := ⟨q.w, -q.x, -q.y, -q.z⟩

/-- Squared quaternion norm. -/
def Quat.normSq (q : Quat) : ℚ := q.w * q.w + q.x * q.x + q.y * q.y + q.z * q.z

/-- Rotation of a vector by a quaternion (`quat @ vector` in mathutils, for a
unit quaternion): the vector part of `q * (0, v) * q.conj`. -/
def Quat.rot (q : Quat) (v : Vec3) : Vec3 :=
  let p := Quat.mul (Quat.mul q ⟨0, v.x, v.y, v.z⟩) q.conj
  ⟨p.x, p.y, p.z⟩

/-- Triangle of the evaluated, triangulated target mesh.  `normal` is the
host-supplied `face.normal` (unit, or zero for a degenerate face) and `area`
the host-supplied `face.calc_area()` (nonnegative). -/
structure Tri where
  v0 : Vec3
  v1 : Vec3
  v2 : Vec3
  normal : Vec3
  area : ℚ
deriving DecidableEq, Repr

/-- World transform of a target object: the affine action of
`obj.matrix_world` (rows of the 3×3 linear part plus translation) together
with `matrix_world.to_quaternion()`, the host-extracted rotation part (always
a unit quaternion). -/
structure WorldMatrix where
  r0 : Vec3
  r1 : Vec3
  r2 : Vec3
  t : Vec3
  rotq : Quat
deriving DecidableEq, Repr

/-- Application of the world matrix to a point (`matrix_world @ point`). -/
def WorldMatrix.apply (m : WorldMatrix) (v : Vec3) : Vec3 :=
  ⟨m.r0.dot v + m.t.x, m.r1.dot v + m.t.y, m.r2.dot v + m.t.z⟩

/-- A Blender object usable as a scatter target: its type, and for meshes the
triangulated evaluated geometry with its world transform. -/
structure TargetObj where
  name : String
  isMesh : Bool
  tris : List Tri
  mat : WorldMatrix
deriving DecidableEq, Repr

/-- One slot of `settings.target_objects`; the object pointer may be null. -/
structure TargetRef where
  obj : Option TargetObj
deriving DecidableEq, Repr

/-- The Blender object a grass item points to.  `grass_obj.copy()` copies the
object's transform, so the object's own scale is what a placed instance keeps
when the code does not overwrite it. -/
structure GrassObj where
  name : String
  scale : Vec3
deriving DecidableEq, Repr

/-- One slot of `settings.grass_objects` (`DAYZ_GrassObject`): a possibly-null
object pointer and a weight. -/
structure GrassItem where
  obj : Option GrassObj
  weight : ℚ
deriving DecidableEq, Repr

/-- The fields of `DAYZ_GrassPlacerSettings` that the placement algorithm
reads.  The organization options (`parent_to_empty`, `merge_all_grass`,
`merge_by_variant`) only drive host-side scene mutation after placement and
are not part of the placement computation. -/
structure Settings where
  use_density_mode : Bool
  density : ℚ
  total_count : ℕ
  surface_offset : ℚ
  clumping_factor : ℚ
  scale_min : ℚ
  scale_max : ℚ
  random_rotation : Bool
deriving DecidableEq, Repr

/-- Kind of decision a random draw feeds (instrumentation only; the drawn
values are unaffected). -/
inductive DrawKind
  | face
  | bary1
  | bary2
  | clump
  | cand
  | rot
  | scaleDraw
deriving DecidableEq, Repr

/-- The draw stream obtained from seeding Python's global generator. -/
abbrev Gen := ℕ → ℚ

/-- State of the pass's random stream: next position to read, and the labelled
trace of draws made so far. -/
structure RState where
  pos : ℕ
  trace : List DrawKind
deriving DecidableEq, Repr

/-- One `random.random()` call: reads the next stream position. -/
def drawRandom (g : Gen) (k : DrawKind) (st : RState) : ℚ × RState :=
  (g st.pos, ⟨st.pos + 1, st.trace ++ [k]⟩)

/-- One `random.uniform(a, b)` call: CPython computes `a + (b-a)*random()`. -/
def drawUniform (g : Gen) (k : DrawKind) (a b : ℚ) (st : RState) : ℚ × RState :=
  (a + (b - a) * g st.pos, ⟨st.pos + 1, st.trace ++ [k]⟩)

/-- The cumulative-weight walk inside `select_weighted_face`: accumulate
`face_areas[i]` (which is `faces[i].calc_area()`) and return the first face
whose cumulative area reaches the draw; `none` means the loop fell through. -/
def walkFaces : List Tri → ℚ → ℚ → Option Tri
  | [], _, _ => none
  | f :: rest, rv, cur =>
      if rv ≤ cur + f.area then some f else walkFaces rest rv (cur + f.area)

/-- Embedding of `select_weighted_face`: guard clause, one uniform draw in
`[0, total_area)`, cumulative walk, fallback `faces[-1]`. -/
def select_weighted_face (g : Gen) (faces : List Tri) (total_area : ℚ)
    (st : RState) : Option Tri × RState :=
  if faces = [] ∨ total_area = 0 then (none, st)
  else
    let d := drawUniform g .face 0 total_area st
    (match walkFaces faces d.1 0 with
     | some f => some f
     | none => faces.getLast?, d.2)

/-- Embedding of `random_point_on_face` for a triangulated face (triangulated
faces always have exactly three vertices, so the `len(face.verts) < 3` guard
of the Python code is vacuous): two uniform draws, folded back into the
triangle when `r1 + r2 > 1`, then the barycentric combination. -/
def random_point_on_face (g : Gen) (f : Tri) (st : RState) : Vec3 × RState :=
  let d1 := drawRandom g .bary1 st
  let d2 := drawRandom g .bary2 d1.2
  let r1 := d1.1
  let r2 := d2.1
  let rr := if r1 + r2 > 1 then (1 - r1, 1 - r2) else (r1, r2)
  let r3 := 1 - rr.1 - rr.2
  (rr.1 • f.v0 + rr.2 • f.v1 + r3 • f.v2, d2.2)

/-- Median center of a triangular bmesh face (`face.calc_center_median`):
the average of its three vertices. -/
def Tri.centerMedian (f : Tri) : Vec3 := (1 / 3 : ℚ) • (f.v0 + f.v1 + f.v2)

/-- Embedding of `apply_clumping`: guard on a nonpositive factor, else lerp
the point toward the face center by `clump_factor * random.random()`. -/
def apply_clumping (g : Gen) (point : Vec3) (f : Tri) (clump_factor : ℚ)
    (st : RState) : Vec3 × RState :=
  if clump_factor ≤ 0 then (point, st)
  else
    let d := drawRandom g .clump st
    (point.lerp f.centerMedian (clump_factor * d.1), d.2)

/-- The cumulative-weight walk inside `select_weighted_grass`.  `some r`
means the loop returned `grass_item.obj` (which is `r`, possibly null);
`none` means the loop exhausted the list. -/
def walkGrass : List GrassItem → ℚ → ℚ → Option (Option GrassObj)
  | [], _, _ => none
  | gi :: rest, rv, cur =>
      if rv ≤ cur + gi.weight then some gi.obj else walkGrass rest rv (cur + gi.weight)

/-- Embedding of `select_weighted_grass`: one uniform draw in
`[0, total_weight)`, cumulative walk, fallback `valid_grass[-1].obj`.
(The Python fallback indexes `valid_grass[-1]` and is only reachable with a
nonempty list, which `execute` guarantees; on an empty list the model returns
`none`.) -/
def select_weighted_grass (g : Gen) (valid : List GrassItem) (total_weight : ℚ)
    (st : RState) : Option GrassObj × RState :=
  let d := drawUniform g .cand 0 total_weight st
  (match walkGrass valid d.1 0 with
   | some r => r
   | none =>
     match valid.getLast? with
     | some gi => gi.obj
     | none => none, d.2)

/-- A placed grass instance.  `source` is the grass object that was copied,
`location` the world position assigned, `scale` the object scale after
`create_grass_instance` (the copy keeps the source object's scale unless the
code assigns one).  `normal` (the world normal the instance was aligned to)
and `rotDraw` (the raw stream value of the random-rotation draw, the angle
being `2π` times it) are recorded so that the orientation — transcendental
mathematics modelled separately over `ℝ` — can be stated about the pass. -/
structure GrassInstance where
  source : GrassObj
  location : Vec3
  normal : Vec3
  rotDraw : Option ℚ
  scale : Vec3
deriving DecidableEq, Repr

/-- Embedding of `create_grass_instance`.  The orientation block runs only
when `normal.length > 0` (embedded as `0 < lengthSq`, equivalent since
`length = sqrt lengthSq`), and draws the random angle only when additionally
`settings.random_rotation` is set.  The scale assignment happens only when
`scale_min != scale_max`; otherwise the instance keeps the copied object's
scale. -/
def create_grass_instance (g : Gen) (grass : GrassObj) (location normal : Vec3)
    (s : Settings) (st : RState) : GrassInstance × RState :=
  let rotStep : Option ℚ × RState :=
    if 0 < normal.lengthSq ∧ s.random_rotation = true then
      let d := drawRandom g .rot st
      (some d.1, d.2)
    else (none, st)
  let scaleStep : Vec3 × RState :=
    if s.scale_min ≠ s.scale_max then
      let d := drawUniform g .scaleDraw s.scale_min s.scale_max rotStep.2
      (⟨d.1, d.1, d.1⟩, d.2)
    else (grass.scale, rotStep.2)
  (⟨grass, location, normal, rotStep.1, scaleStep.1⟩, scaleStep.2)

/-- Per-candidate counts, keyed by object name (a Python dict with insertion
order preserved). -/
abbrev Counts := List (String × ℕ)

/-- `counts[name] = counts.get(name, 0) + 1`. -/
def bump : Counts → String → Counts
  | [], name => [(name, 1)]
  | (n, k) :: rest, name =>
      if n = name then (n, k + 1) :: rest else (n, k) :: bump rest name

/-- `counts[name] = counts.get(name, 0) + c`. -/
def bumpBy : Counts → String → ℕ → Counts
  | [], name, c => [(name, c)]
  | (n, k) :: rest, name, c =>
      if n = name then (n, k + c) :: rest else (n, k) :: bumpBy rest name c

/-- Merging one per-surface `counts` dict into the aggregated `grass_counts`. -/
def mergeCounts (acc : Counts) : Counts → Counts
  | [] => acc
  | (n, c) :: rest => mergeCounts (bumpBy acc n c) rest

/-- One iteration of the placement loop of `generate_on_object`: weighted
face selection (a `None` face skips the iteration via `continue`),
barycentric point, optional clumping, world transform of point and normal,
optional surface offset, weighted candidate selection (`None` skips), then
instance creation.  Returns the produced instance, if any, and the stream
state after the iteration. -/
def placeStep (g : Gen) (target : TargetObj) (valid : List GrassItem)
    (total_weight : ℚ) (s : Settings) (faces : List Tri) (total_area : ℚ)
    (st : RState) : Option GrassInstance × RState :=
  match select_weighted_face g faces total_area st with
  | (none, st1) => (none, st1)
  | (some face, st1) =>
    let p0 := random_point_on_face g face st1
    let pc : Vec3 × RState :=
      if 0 < s.clumping_factor then apply_clumping g p0.1 face s.clumping_factor p0.2
      else p0
    let point_world := target.mat.apply pc.1
    let normal_world := (target.mat.rotq.rot face.normal).normalize
    let point_world :=
      if s.surface_offset ≠ 0 then point_world + s.surface_offset • normal_world
      else point_world
    match select_weighted_grass g valid total_weight pc.2 with
    | (none, st4) => (none, st4)
    | (some gobj, st4) =>
      let ci := create_grass_instance g gobj point_world normal_world s st4
      (some ci.1, ci.2)

/-- The placement loop of `generate_on_object` (`for i in range(count)`),
with the instance and counts accumulators threaded in program order.  An
iteration that produces an instance appends it and bumps the count of its
source object's name (`counts[grass_obj.name] += 1` happens just before
`create_grass_instance`, for the same object). -/
def placeLoop (g : Gen) (target : TargetObj) (valid : List GrassItem)
    (total_weight : ℚ) (s : Settings) (faces : List Tri) (total_area : ℚ) :
    ℕ → RState → List GrassInstance → Counts → (List GrassInstance × Counts) × RState
  | 0, st, insts, counts => ((insts, counts), st)
  | n + 1, st, insts, counts =>
    match placeStep g target valid total_weight s faces total_area st with
    | (none, st') => placeLoop g target valid total_weight s faces total_area n st' insts counts
    | (some inst, st') =>
      placeLoop g target valid total_weight s faces total_area n st'
        (insts ++ [inst]) (bump counts inst.source.name)

/-- Embedding of `generate_on_object`: triangulated face list, per-face areas,
zero-total-area early return (no draws), then the placement loop. -/
def generate_on_object (g : Gen) (target : TargetObj) (valid : List GrassItem)
    (total_weight : ℚ) (s : Settings) (count : ℕ) (st : RState) :
    (List GrassInstance × Counts) × RState :=
  let faces := target.tris
  let total_area := (faces.map Tri.area).sum
  if total_area = 0 then (([], []), st)
  else placeLoop g target valid total_weight s faces total_area count st [] []

/-- Embedding of `calculate_mesh_area`: 0 for non-mesh objects, else the sum
of the evaluated mesh's face areas (triangulation preserves face area, so
this is the same sum `generate_on_object` computes). -/
def calculate_mesh_area (t : TargetObj) : ℚ :=
  if t.isMesh then (t.tris.map Tri.area).sum else 0

/-- Python `int()` applied to a float: truncation toward zero. -/
def pyInt (q : ℚ) : ℤ := if 0 ≤ q then ⌊q⌋ else ⌈q⌉

/-- The validation filter of `execute`:
`[g for g in settings.grass_objects if g.obj and g.weight > 0]`. -/
def validGrass (grassItems : List GrassItem) : List GrassItem :=
  grassItems.filter fun gi => gi.obj.isSome && decide (0 < gi.weight)

/-- The two user-facing failures of the pass (`self.report({'ERROR'}, ...)`
followed by `return {'CANCELLED'}`).  Both candidate-side messages ("No valid
grass objects with weight > 0" and "Total grass weight is 0") are the
spec's `NoValidCandidatesError`. -/
inductive PassError
  | noTargets
  | noValidCandidates
deriving DecidableEq, Repr

/-- Result of one `execute` run: a cancelled pass, or the placed instances,
aggregated per-candidate counts, aggregated area and final stream state. -/
inductive ExecResult
  | cancelled (err : PassError)
  | finished (instances : List GrassInstance) (counts : Counts) (total_area : ℚ)
      (final : RState)
deriving DecidableEq, Repr

/-- The target loop of `execute`: null or non-mesh targets are skipped
(`continue`), otherwise the per-object budget is computed
(`int(mesh_area * density)` in density mode, `settings.total_count`
otherwise; a Python `range` of a negative count is empty, hence `Int.toNat`)
and `generate_on_object` runs, extending the instance list and merging the
counts. -/
def targetFold (g : Gen) (valid : List GrassItem) (total_weight : ℚ)
    (s : Settings) :
    List TargetRef → RState → List GrassInstance → Counts → ℚ →
      (List GrassInstance × Counts × ℚ) × RState
  | [], st, insts, counts, area => ((insts, counts, area), st)
  | tr :: rest, st, insts, counts, area =>
    match tr.obj with
    | none => targetFold g valid total_weight s rest st insts counts area
    | some t =>
      if t.isMesh = false then targetFold g valid total_weight s rest st insts counts area
      else
        let mesh_area := calculate_mesh_area t
        let count : ℕ :=
          if s.use_density_mode then (pyInt (mesh_area * s.density)).toNat
          else s.total_count
        let r := generate_on_object g t valid total_weight s count st
        targetFold g valid total_weight s rest r.2 (insts ++ r.1.1)
          (mergeCounts counts r.1.2) (area + mesh_area)

/-- Embedding of `DAYZ_OT_GenerateGrass.execute` up to scene mutation: the
two validation gates, the (unreachable) zero-total-weight gate, then the
target loop.  `random.seed(settings.distribution_seed)` is modelled by the
pass consuming the fixed stream `g` from position 0, once, before the target
iteration. -/
def execute (targets : List TargetRef) (grassItems : List GrassItem)
    (s : Settings) (g : Gen) : ExecResult :=
  if targets = [] then .cancelled .noTargets
  else
    let valid := validGrass grassItems
    if valid = [] then .cancelled .noValidCandidates
    else
      let total_weight := (valid.map GrassItem.weight).sum
      if total_weight = 0 then .cancelled .noValidCandidates
      else
        let r := targetFold g valid total_weight s targets ⟨0, []⟩ [] [] 0
        .finished r.1.1 r.1.2.1 r.1.2.2 r.2

/-- Instances of a result (`all_grass_instances`; a cancelled pass returns
before any placement). -/
def resultInstances : ExecResult → List GrassInstance
  | .cancelled _ => []
  | .finished insts _ _ _ => insts

/-- Aggregated per-candidate counts of a result (`grass_counts`). -/
def resultCounts : ExecResult → Counts
  | .cancelled _ => []
  | .finished _ counts _ _ => counts

/-- Sum of the per-candidate counts of a report dict. -/
def sumCounts (c : Counts) : ℕ := (c.map Prod.snd).sum

/-! ### Component lemmas for the rational vector algebra -/

@[ext]
theorem Vec3.ext {a b : Vec3} (hx : a.x = b.x) (hy : a.y = b.y) (hz : a.z = b.z) :
    a = b := by
  cases a; cases b; simp_all

@[simp] theorem Vec3.add_x (a b : Vec3) : (a + b).x = a.x + b.x := rfl

@[simp] theorem Vec3.add_y (a b : Vec3) : (a + b).y = a.y + b.y := rfl

@[simp] theorem Vec3.add_z (a b : Vec3) : (a + b).z = a.z + b.z := rfl

@[simp] theorem Vec3.sub_x (a b : Vec3) : (a - b).x = a.x - b.x := rfl

@[simp] theorem Vec3.sub_y (a b : Vec3) : (a - b).y = a.y - b.y := rfl

@[simp] theorem Vec3.sub_z (a b : Vec3) : (a - b).z = a.z - b.z := rfl

@[simp] theorem Vec3.smul_x (c : ℚ) (v : Vec3) : (c • v).x = c * v.x := rfl

@[simp] theorem Vec3.smul_y (c : ℚ) (v : Vec3) : (c • v).y = c * v.y := rfl

@[simp] theorem Vec3.smul_z (c : ℚ) (v : Vec3) : (c • v).z = c * v.z := rfl

@[simp] theorem Vec3.zero_x : (0 : Vec3).x = 0 := rfl

@[simp] theorem Vec3.zero_y : (0 : Vec3).y = 0 := rfl

@[simp] theorem Vec3.zero_z : (0 : Vec3).z = 0 := rfl

@[simp] theorem Vec3.one_smul (v : Vec3) : (1 : ℚ) • v = v := by
  ext <;> simp

theorem Rat.sqrt_one' : Rat.sqrt (1 : ℚ) = 1 := by decide

/-- Normalizing a vector that is already unit (in the squared sense) is the
identity; this is the situation `generate_on_object` is in, since the host
supplies unit face normals and a unit rotation quaternion. -/
theorem Vec3.normalize_of_unit {v : Vec3} (h : v.lengthSq = 1) : v.normalize = v := by
  have hlen : v.len = 1 := by simp [Vec3.len, h, Rat.sqrt_one']
  simp [Vec3.normalize, hlen]

/-- Rotating a vector by a quaternion scales its squared length by the square
of the quaternion's squared norm (so unit quaternions preserve length). -/
theorem Quat.rot_lengthSq (q : Quat) (v : Vec3) :
    (q.rot v).lengthSq = q.normSq ^ 2 * v.lengthSq := by
  cases q; cases v
  simp only [Quat.rot, Quat.mul, Quat.conj, Quat.normSq, Vec3.lengthSq]
  ring

/-- The world normal computed by `generate_on_object` from a host-supplied
unit face normal and unit rotation quaternion: normalization is the identity
and the result is unit. -/
theorem normal_world_unit {q : Quat} {v : Vec3} (hq : q.normSq = 1)
    (hv : v.lengthSq = 1) :
    (q.rot v).normalize = q.rot v ∧ ((q.rot v).normalize).lengthSq = 1 := by
  have h1 : (q.rot v).lengthSq = 1 := by
    rw [Quat.rot_lengthSq, hq, hv]; ring
  refine ⟨Vec3.normalize_of_unit h1, ?_⟩
  rw [Vec3.normalize_of_unit h1]; exact h1

/-! ### Membership lemmas for the cumulative-weight walks -/

theorem walkFaces_mem {faces : List Tri} {rv cur : ℚ} {f : Tri}
    (h : walkFaces faces rv cur = some f) : f ∈ faces := by
  induction faces generalizing cur with
  | nil => simp [walkFaces] at h
  | cons a rest ih =>
    rw [walkFaces] at h
    split at h
    · cases h; exact List.mem_cons_self _ _
    · exact List.mem_cons_of_mem _ (ih h)

/-- A successful face selection returns a member of the face list, advances
the stream by one position and labels the draw `.face`. -/
theorem select_weighted_face_spec {g : Gen} {faces : List Tri} {total_area : ℚ}
    {st : RState} (hne : faces ≠ []) (hta : total_area ≠ 0) :
    ∃ f, select_weighted_face g faces total_area st
        = (some f, ⟨st.pos + 1, st.trace ++ [.face]⟩) ∧ f ∈ faces := by
  have hcond : ¬(faces = [] ∨ total_area = 0) := by simp [hne, hta]
  rcases hw : walkFaces faces (0 + (total_area - 0) * g st.pos) 0 with _ | f
  · refine ⟨faces.getLast hne, ?_, List.getLast_mem hne⟩
    rw [select_weighted_face, if_neg hcond]
    simp only [drawUniform]
    rw [hw, List.getLast?_eq_getLast faces hne]
  · refine ⟨f, ?_, walkFaces_mem hw⟩
    rw [select_weighted_face, if_neg hcond]
    simp only [drawUniform]
    rw [hw]

theorem walkGrass_mem {valid : List GrassItem} {rv cur : ℚ} {r : Option GrassObj}
    (h : walkGrass valid rv cur = some r) : ∃ gi ∈ valid, gi.obj = r := by
  induction valid generalizing cur with
  | nil => simp [walkGrass] at h
  | cons a rest ih =>
    rw [walkGrass] at h
    split at h
    · exact ⟨a, List.mem_cons_self _ _, by cases h; rfl⟩
    · obtain ⟨gi, hm, he⟩ := ih h
      exact ⟨gi, List.mem_cons_of_mem _ hm, he⟩

/-- A candidate selection over a nonempty list of items with non-null objects
returns a grass object coming from one of the items, advances the stream by
one position and labels the draw `.cand`. -/
theorem select_weighted_grass_spec {g : Gen} {valid : List GrassItem}
    {total_weight : ℚ} {st : RState} (hne : valid ≠ [])
    (hsome : ∀ gi ∈ valid, gi.obj.isSome = true) :
    ∃ go, select_weighted_grass g valid total_weight st
        = (some go, ⟨st.pos + 1, st.trace ++ [.cand]⟩)
      ∧ ∃ gi ∈ valid, gi.obj = some go := by
  rcases hw : walkGrass valid (0 + (total_weight - 0) * g st.pos) 0 with _ | r
  · obtain ⟨go, hgo⟩ := Option.isSome_iff_exists.mp
      (hsome _ (List.getLast_mem hne))
    refine ⟨go, ?_, _, List.getLast_mem hne, hgo⟩
    rw [select_weighted_grass]
    simp only [drawUniform]
    rw [hw, List.getLast?_eq_getLast valid hne]
    dsimp only
    rw [hgo]
  · obtain ⟨gi, hm, he⟩ := walkGrass_mem hw
    obtain ⟨go, hgo⟩ := Option.isSome_iff_exists.mp (hsome _ hm)
    refine ⟨go, ?_, gi, hm, hgo⟩
    rw [select_weighted_grass]
    simp only [drawUniform]
    rw [hw]
    dsimp only
    rw [← he, hgo]

/-! ### Inversion lemmas for one placement iteration -/

theorem getLast?_mem {α : Type} {l : List α} {a : α}
    (h : l.getLast? = some a) : a ∈ l := by
  obtain ⟨hne, he⟩ := List.mem_getLast?_eq_getLast (Option.mem_def.mpr h)
  rw [he]
  exact List.getLast_mem hne

theorem select_weighted_face_some_mem {g : Gen} {faces : List Tri} {ta : ℚ}
    {st st' : RState} {f : Tri}
    (h : select_weighted_face g faces ta st = (some f, st')) : f ∈ faces := by
  rw [select_weighted_face] at h
  split at h
  · simp at h
  · dsimp only at h
    split at h
    · rename_i hw
      injection h with h1 h2
      injection h1 with h1
      exact h1 ▸ walkFaces_mem hw
    · injection h with h1 h2
      exact getLast?_mem h1

theorem select_weighted_grass_some_mem {g : Gen} {valid : List GrassItem}
    {tw : ℚ} {st st' : RState} {go : GrassObj}
    (h : select_weighted_grass g valid tw st = (some go, st')) :
    ∃ gi ∈ valid, gi.obj = some go := by
  rw [select_weighted_grass] at h
  split at h
  · rename_i r hw
    obtain ⟨gi, hm, he⟩ := walkGrass_mem hw
    injection h with h1 h2
    exact ⟨gi, hm, he.trans h1⟩
  · rename_i hw
    split at h
    · rename_i gi hl
      injection h with h1 h2
      exact ⟨gi, getLast?_mem hl, h1⟩
    · simp at h

theorem create_grass_instance_source (g : Gen) (grass : GrassObj)
    (location normal : Vec3) (s : Settings) (st : RState) :
    (create_grass_instance g grass location normal s st).1.source = grass := by
  rw [create_grass_instance]

/-- When `scale_min == scale_max` the scale assignment of
`create_grass_instance` is skipped, so the instance keeps the copied source
object's scale. -/
theorem create_grass_instance_scale_untouched {g : Gen} {grass : GrassObj}
    {location normal : Vec3} {s : Settings} {st : RState}
    (h : s.scale_min = s.scale_max) :
    (create_grass_instance g grass location normal s st).1.scale = grass.scale := by
  rw [create_grass_instance]
  simp [h]

/-- Every instance produced by a placement iteration originates from a
candidate item of the list with a non-null object. -/
theorem placeStep_some_source {g : Gen} {target : TargetObj}
    {valid : List GrassItem} {tw : ℚ} {s : Settings} {faces : List Tri}
    {ta : ℚ} {st st' : RState} {inst : GrassInstance}
    (h : placeStep g target valid tw s faces ta st = (some inst, st')) :
    ∃ gi ∈ valid, gi.obj = some inst.source := by
  rw [placeStep] at h
  split at h
  · simp at h
  · dsimp only at h
    split at h
    · simp at h
    · rename_i gobj st4 hg
      injection h with h1 h2
      injection h1 with h1
      obtain ⟨gi, hm, he⟩ := select_weighted_grass_some_mem hg
      refine ⟨gi, hm, ?_⟩
      rw [he, ← h1, create_grass_instance_source]

/-- When `scale_min == scale_max`, every instance produced by a placement
iteration keeps its source object's scale. -/
theorem placeStep_some_scale {g : Gen} {target : TargetObj}
    {valid : List GrassItem} {tw : ℚ} {s : Settings} {faces : List Tri}
    {ta : ℚ} {st st' : RState} {inst : GrassInstance}
    (hs : s.scale_min = s.scale_max)
    (h : placeStep g target valid tw s faces ta st = (some inst, st')) :
    inst.scale = inst.source.scale := by
  rw [placeStep] at h
  split at h
  · simp at h
  · dsimp only at h
    split at h
    · simp at h
    · injection h with h1 h2
      injection h1 with h1
      rw [← h1, create_grass_instance_scale_untouched hs, create_grass_instance_source]

/-! ### Invariant lifting through the placement loop and the target loop -/

theorem placeLoop_inv {g : Gen} {target : TargetObj} {valid : List GrassItem}
    {tw : ℚ} {s : Settings} {faces : List Tri} {ta : ℚ}
    {P : GrassInstance → Prop}
    (hstep : ∀ st st' inst,
      placeStep g target valid tw s faces ta st = (some inst, st') → P inst) :
    ∀ (n : ℕ) (st : RState) (insts : List GrassInstance) (counts : Counts),
      (∀ i ∈ insts, P i) →
      ∀ i ∈ (placeLoop g target valid tw s faces ta n st insts counts).1.1, P i := by
  intro n
  induction n with
  | zero =>
    intro st insts counts hinv i hi
    exact hinv i (by simpa [placeLoop] using hi)
  | succ n ih =>
    intro st insts counts hinv i hi
    rw [placeLoop] at hi
    rcases hstep' : placeStep g target valid tw s faces ta st with ⟨oi, st'⟩
    rw [hstep'] at hi
    cases oi with
    | none => exact ih st' insts counts hinv i hi
    | some inst =>
      refine ih st' (insts ++ [inst]) _ ?_ i hi
      intro j hj
      rcases List.mem_append.mp hj with hj | hj
      · exact hinv j hj
      · rw [List.mem_singleton.mp hj]
        exact hstep _ _ _ hstep'

theorem generate_on_object_inv {g : Gen} {t : TargetObj} {valid : List GrassItem}
    {tw : ℚ} {s : Settings} {count : ℕ} {st : RState} {P : GrassInstance → Prop}
    (hstep : ∀ st st' inst,
      placeStep g t valid tw s t.tris ((t.tris.map Tri.area).sum) st = (some inst, st') →
        P inst) :
    ∀ i ∈ (generate_on_object g t valid tw s count st).1.1, P i := by
  rw [generate_on_object]
  split
  · simp
  · exact placeLoop_inv hstep count st [] [] (by simp)

theorem targetFold_inv {g : Gen} {valid : List GrassItem} {tw : ℚ} {s : Settings}
    {P : GrassInstance → Prop}
    (hstep : ∀ (t : TargetObj) (st st' : RState) (inst : GrassInstance),
      placeStep g t valid tw s t.tris ((t.tris.map Tri.area).sum) st = (some inst, st') →
        P inst) :
    ∀ (targets : List TargetRef) (st : RState) (insts : List GrassInstance)
      (counts : Counts) (area : ℚ),
      (∀ i ∈ insts, P i) →
      ∀ i ∈ (targetFold g valid tw s targets st insts counts area).1.1, P i := by
  intro targets
  induction targets with
  | nil =>
    intro st insts counts area hinv i hi
    exact hinv i (by simpa [targetFold] using hi)
  | cons tr rest ih =>
    intro st insts counts area hinv i hi
    rw [targetFold] at hi
    rcases tr with ⟨_ | t⟩
    · exact ih st insts counts area hinv i hi
    · dsimp only at hi
      by_cases hm : t.isMesh = false
      · rw [if_pos hm] at hi
        exact ih st insts counts area hinv i hi
      · rw [if_neg hm] at hi
        refine ih _ _ _ _ ?_ i hi
        intro j hj
        rcases List.mem_append.mp hj with hj | hj
        · exact hinv j hj
        · exact generate_on_object_inv (hstep t) j hj

/-- Instance-level invariants transfer to every instance of a finished pass. -/
theorem execute_inv {targets : List TargetRef} {grassItems : List GrassItem}
    {s : Settings} {g : Gen} {P : GrassInstance → Prop}
    (hstep : ∀ (t : TargetObj) (st st' : RState) (inst : GrassInstance),
      placeStep g t (validGrass grassItems) ((validGrass grassItems).map GrassItem.weight).sum
          s t.tris ((t.tris.map Tri.area).sum) st = (some inst, st') → P inst) :
    ∀ i ∈ resultInstances (execute targets grassItems s g), P i := by
  rw [execute]
  split
  · simp [resultInstances]
  · dsimp only
    split
    · simp [resultInstances]
    · split
      · simp [resultInstances]
      · dsimp only [resultInstances]
        exact targetFold_inv hstep targets ⟨0, []⟩ [] [] 0 (by simp)

/-! ### Counting: per-candidate counts against placed-instance totals -/

theorem sumCounts_bump (c : Counts) (name : String) :
    sumCounts (bump c name) = sumCounts c + 1 := by
  induction c with
  | nil => simp [bump, sumCounts]
  | cons p rest ih =>
    rcases p with ⟨n, k⟩
    rw [bump]
    split
    · simp [sumCounts]
      omega
    · simp [sumCounts] at ih ⊢
      omega

theorem sumCounts_bumpBy (c : Counts) (name : String) (k : ℕ) :
    sumCounts (bumpBy c name k) = sumCounts c + k := by
  induction c with
  | nil => simp [bumpBy, sumCounts]
  | cons p rest ih =>
    rcases p with ⟨n, m⟩
    rw [bumpBy]
    split
    · simp [sumCounts]
      omega
    · simp [sumCounts] at ih ⊢
      omega

theorem sumCounts_merge (b : Counts) :
    ∀ a : Counts, sumCounts (mergeCounts a b) = sumCounts a + sumCounts b := by
  induction b with
  | nil => intro a; simp [mergeCounts, sumCounts]
  | cons p rest ih =>
    intro a
    rcases p with ⟨n, c⟩
    rw [mergeCounts, ih, sumCounts_bumpBy]
    simp [sumCounts]
    omega

theorem placeLoop_counts (g : Gen) (target : TargetObj) (valid : List GrassItem)
    (tw : ℚ) (s : Settings) (faces : List Tri) (ta : ℚ) :
    ∀ (n : ℕ) (st : RState) (insts : List GrassInstance) (counts : Counts),
      sumCounts (placeLoop g target valid tw s faces ta n st insts counts).1.2
          + insts.length
        = (placeLoop g target valid tw s faces ta n st insts counts).1.1.length
          + sumCounts counts := by
  intro n
  induction n with
  | zero =>
    intro st insts counts
    simp [placeLoop]
    omega
  | succ n ih =>
    intro st insts counts
    rw [placeLoop]
    rcases placeStep g target valid tw s faces ta st with ⟨oi, st'⟩
    cases oi with
    | none => exact ih st' insts counts
    | some inst =>
      dsimp only
      have := ih st' (insts ++ [inst]) (bump counts inst.source.name)
      rw [sumCounts_bump] at this
      simp only [List.length_append, List.length_singleton] at this
      omega

theorem generate_on_object_counts (g : Gen) (t : TargetObj)
    (valid : List GrassItem) (tw : ℚ) (s : Settings) (count : ℕ) (st : RState) :
    sumCounts (generate_on_object g t valid tw s count st).1.2
      = (generate_on_object g t valid tw s count st).1.1.length := by
  rw [generate_on_object]
  split
  · simp [sumCounts]
  · have := placeLoop_counts g t valid tw s t.tris ((t.tris.map Tri.area).sum)
      count st [] []
    simpa [sumCounts] using this

theorem targetFold_counts (g : Gen) (valid : List GrassItem) (tw : ℚ)
    (s : Settings) :
    ∀ (targets : List TargetRef) (st : RState) (insts : List GrassInstance)
      (counts : Counts) (area : ℚ),
      sumCounts (targetFold g valid tw s targets st insts counts area).1.2.1
          + insts.length
        = (targetFold g valid tw s targets st insts counts area).1.1.length
          + sumCounts counts := by
  intro targets
  induction targets with
  | nil =>
    intro st insts counts area
    simp [targetFold]
    omega
  | cons tr rest ih =>
    intro st insts counts area
    rw [targetFold]
    rcases tr with ⟨_ | t⟩
    · exact ih st insts counts area
    · dsimp only
      by_cases hm : t.isMesh = false
      · rw [if_pos hm]
        exact ih st insts counts area
      · rw [if_neg hm]
        have h1 := ih (generate_on_object g t valid tw s
            (if s.use_density_mode = true
              then (pyInt (calculate_mesh_area t * s.density)).toNat
              else s.total_count) st).2
          (insts ++ (generate_on_object g t valid tw s
            (if s.use_density_mode = true
              then (pyInt (calculate_mesh_area t * s.density)).toNat
              else s.total_count) st).1.1)
          (mergeCounts counts (generate_on_object g t valid tw s
            (if s.use_density_mode = true
              then (pyInt (calculate_mesh_area t * s.density)).toNat
              else s.total_count) st).1.2)
          (area + calculate_mesh_area t)
        rw [sumCounts_merge, generate_on_object_counts] at h1
        simp only [List.length_append] at h1
        omega

/-! ### Validation-gate characterization of `execute` -/

theorem validGrass_mem {grassItems : List GrassItem} {gi : GrassItem}
    (h : gi ∈ validGrass grassItems) :
    gi ∈ grassItems ∧ gi.obj.isSome = true ∧ 0 < gi.weight := by
  obtain ⟨hm, hp⟩ := List.mem_filter.mp h
  simp only [Bool.and_eq_true, decide_eq_true_eq] at hp
  exact ⟨hm, hp.1, hp.2⟩

theorem validGrass_sum_pos {grassItems : List GrassItem}
    (h : validGrass grassItems ≠ []) :
    0 < ((validGrass grassItems).map GrassItem.weight).sum := by
  refine List.sum_pos _ ?_ (by simpa using h)
  intro x hx
  obtain ⟨gi, hgi, rfl⟩ := List.mem_map.mp hx
  exact (validGrass_mem hgi).2.2

/-- With both validation gates passed, `execute` runs (and returns the result
of) the target loop, started once at stream position 0 with empty
accumulators. -/
theorem execute_of_valid {targets : List TargetRef} {grassItems : List GrassItem}
    (s : Settings) (g : Gen) (hne : targets ≠ []) (hv : validGrass grassItems ≠ []) :
    execute targets grassItems s g =
      .finished
        (targetFold g (validGrass grassItems)
          ((validGrass grassItems).map GrassItem.weight).sum s targets ⟨0, []⟩ [] [] 0).1.1
        (targetFold g (validGrass grassItems)
          ((validGrass grassItems).map GrassItem.weight).sum s targets ⟨0, []⟩ [] [] 0).1.2.1
        (targetFold g (validGrass grassItems)
          ((validGrass grassItems).map GrassItem.weight).sum s targets ⟨0, []⟩ [] [] 0).1.2.2
        (targetFold g (validGrass grassItems)
          ((validGrass grassItems).map GrassItem.weight).sum s targets ⟨0, []⟩ [] [] 0).2 := by
  rw [execute, if_neg hne]
  dsimp only
  rw [if_neg hv, if_neg (ne_of_gt (validGrass_sum_pos hv))]

/-- A target list in which every slot is null or points at a non-mesh object
makes the target loop a no-op. -/
theorem targetFold_all_skipped {g : Gen} {valid : List GrassItem} {tw : ℚ}
    {s : Settings} :
    ∀ (targets : List TargetRef) (st : RState) (insts : List GrassInstance)
      (counts : Counts) (area : ℚ),
      (∀ tr ∈ targets, ∀ t, tr.obj = some t → t.isMesh = false) →
      targetFold g valid tw s targets st insts counts area = ((insts, counts, area), st) := by
  intro targets
  induction targets with
  | nil => intro st insts counts area _; rw [targetFold]
  | cons tr rest ih =>
    intro st insts counts area hskip
    rw [targetFold]
    rcases htr : tr.obj with _ | t
    · exact ih st insts counts area fun tr' h' => hskip tr' (List.mem_cons_of_mem _ h')
    · dsimp only
      rw [if_pos (hskip tr (List.mem_cons_self _ _) t htr)]
      exact ih st insts counts area fun tr' h' => hskip tr' (List.mem_cons_of_mem _ h')

/-! ### Concrete inputs used by witnesses and counterexamples -/

/-- Identity world matrix with identity rotation quaternion. -/
def exIdMat : WorldMatrix := ⟨⟨1, 0, 0⟩, ⟨0, 1, 0⟩, ⟨0, 0, 1⟩, ⟨0, 0, 0⟩, ⟨1, 0, 0, 0⟩⟩

/-- Right triangle in the xy-plane with legs 1 and 2: unit normal `(0,0,1)`,
area 1. -/
def exTri : Tri := ⟨⟨0, 0, 0⟩, ⟨1, 0, 0⟩, ⟨0, 2, 0⟩, ⟨0, 0, 1⟩, 1⟩

/-- A single-triangle mesh target. -/
def exTarget : TargetObj := ⟨"ground", true, [exTri], exIdMat⟩

/-- A non-mesh object (e.g. a camera) in a target slot. -/
def exNonMesh : TargetObj := ⟨"camera", false, [], exIdMat⟩

/-- A degenerate mesh target: one zero-area triangle with zero normal. -/
def exTargetDegenerate : TargetObj :=
  ⟨"flat", true, [⟨⟨0, 0, 0⟩, ⟨1, 0, 0⟩, ⟨2, 0, 0⟩, ⟨0, 0, 0⟩, 0⟩], exIdMat⟩

/-- A 10×10 square (area 100) out of two triangles of area 50. -/
def exTargetBig : TargetObj :=
  ⟨"square", true,
    [⟨⟨0, 0, 0⟩, ⟨10, 0, 0⟩, ⟨0, 10, 0⟩, ⟨0, 0, 1⟩, 50⟩,
     ⟨⟨10, 10, 0⟩, ⟨10, 0, 0⟩, ⟨0, 10, 0⟩, ⟨0, 0, 1⟩, 50⟩], exIdMat⟩

def exTargets : List TargetRef := [⟨some exTarget⟩]

/-- A grass object whose own object scale is `(1,1,1)`. -/
def exGrassObj : GrassObj := ⟨"grass_a", ⟨1, 1, 1⟩⟩

def exGrassOne : List GrassItem := [⟨some exGrassObj, 1⟩]

/-- A candidate list whose only entry has a positive weight but a null
object pointer. -/
def exGrassNull : List GrassItem := [⟨none, 1⟩]

/-- Count-mode settings placing one instance, no clumping, no offset, no
random rotation, with `scale_min = scale_max = 2`. -/
def exSettingsEq : Settings :=
  { use_density_mode := false, density := 10, total_count := 1,
    surface_offset := 0, clumping_factor := 0,
    scale_min := 2, scale_max := 2, random_rotation := false }

/-- The all-zeros draw stream. -/
def gZero : Gen := fun _ => 0

/-! ### Claim C1 — scale at `scale_min == scale_max` -/

/-- Claim C1, counterexample to the claim as stated: with
`scale_min = scale_max = 2` and a candidate object whose own scale is
`(1,1,1)`, the pass places exactly one instance and its scale is `(1,1,1)`,
not the uniform scale `2` the claim requires, because the code only assigns
a scale when `scale_min != scale_max`. -/
theorem claim_C1_counterexample :
    exSettingsEq.scale_min = exSettingsEq.scale_max ∧
    exSettingsEq.scale_min = 2 ∧
    (resultInstances (execute exTargets exGrassOne exSettingsEq gZero)).map
        GrassInstance.scale = [⟨1, 1, 1⟩] ∧
    (⟨1, 1, 1⟩ : Vec3) ≠ ⟨2, 2, 2⟩ := by
  refine ⟨by decide, by decide, ?_, by decide⟩
  decide

/-- Claim C1, amended: for every scatter pass whose config has
`scale_min = scale_max`, the scale assignment is skipped and every placed
instance keeps its source candidate object's own scale (so it has scale `s`
exactly when the candidate's scale is `s`). -/
theorem claim_C1_amended (targets : List TargetRef) (grassItems : List GrassItem)
    (s : Settings) (g : Gen) (h : s.scale_min = s.scale_max) :
    ∀ inst ∈ resultInstances (execute targets grassItems s g),
      inst.scale = inst.source.scale :=
  execute_inv fun _ _ _ _ hstep => placeStep_some_scale h hstep

/-- Claim C1 witness: the amended theorem applied to a concrete pass. -/
theorem claim_C1_witness :
    (resultInstances (execute exTargets exGrassOne exSettingsEq gZero)).map
        GrassInstance.scale
      = (resultInstances (execute exTargets exGrassOne exSettingsEq gZero)).map
        (fun inst => inst.source.scale) :=
  List.map_congr_left fun inst hi =>
    claim_C1_amended exTargets exGrassOne exSettingsEq gZero (by decide) inst hi

/-! ### Claim C4 — failure conditions of the pass -/

/-- Claim C4, counterexample to the claim as stated: a candidate list whose
only entry has weight 1 (> 0) but a null object still cancels the pass with
the no-valid-candidates error, although the claim says that error occurs
exactly when no candidate has weight > 0. -/
theorem claim_C4_counterexample :
    execute exTargets exGrassNull exSettingsEq gZero
        = .cancelled .noValidCandidates ∧
    ∃ gi ∈ exGrassNull, 0 < gi.weight := by
  exact ⟨by decide, ⟨none, 1⟩, by decide, by norm_num⟩

/-- Claim C4, amended: the pass fails with `NoTargetsError` exactly when the
target list is empty, and with `NoValidCandidatesError` exactly when the
target list is non-empty and no candidate entry has both a non-null object
and weight > 0 (equivalently: the summed weight of such entries is 0, the
code's separate zero-total-weight check being unreachable); a cancelled pass
returns no placements. -/
theorem claim_C4_amended (targets : List TargetRef) (grassItems : List GrassItem)
    (s : Settings) (g : Gen) :
    (execute targets grassItems s g = .cancelled .noTargets ↔ targets = []) ∧
    (execute targets grassItems s g = .cancelled .noValidCandidates ↔
      (targets ≠ [] ∧ validGrass grassItems = [])) ∧
    (validGrass grassItems = [] ↔
      ((validGrass grassItems).map GrassItem.weight).sum = 0) ∧
    (∀ e, execute targets grassItems s g = .cancelled e →
      resultInstances (execute targets grassItems s g) = []) := by
  have hsum : validGrass grassItems = [] ↔
      ((validGrass grassItems).map GrassItem.weight).sum = 0 := by
    constructor
    · intro h; rw [h]; rfl
    · intro h
      by_contra hne
      exact absurd h (ne_of_gt (validGrass_sum_pos hne))
  by_cases hne : targets = []
  · subst hne
    have hx : execute [] grassItems s g = .cancelled .noTargets := by
      rw [execute, if_pos rfl]
    refine ⟨by simp [hx], by simp [hx], hsum, ?_⟩
    intro e h; rw [hx]; rfl
  · by_cases hv : validGrass grassItems = []
    · have hx : execute targets grassItems s g = .cancelled .noValidCandidates := by
        rw [execute, if_neg hne]
        dsimp only
        rw [if_pos hv]
      refine ⟨by simp [hx, hne], by simp [hx, hne, hv], hsum, ?_⟩
      intro e h; rw [hx]; rfl
    · have hx := execute_of_valid s g hne hv
      refine ⟨by simp [hx, hne], by simp [hx, hne, hv], hsum, ?_⟩
      intro e h
      rw [hx] at h
      exact absurd h (by simp)

/-! ### Claim C8 — null / non-mesh targets are silently skipped -/

/-- Claim C8: a non-empty target list in which every slot is null or points
to a non-mesh object raises neither error: the pass finishes normally with
zero placements (and consumes no random draws). -/
theorem claim_C8 (targets : List TargetRef) (grassItems : List GrassItem)
    (s : Settings) (g : Gen) (hne : targets ≠ [])
    (hskip : ∀ tr ∈ targets, ∀ t, tr.obj = some t → t.isMesh = false)
    (hv : validGrass grassItems ≠ []) :
    execute targets grassItems s g = .finished [] [] 0 ⟨0, []⟩ := by
  rw [execute_of_valid s g hne hv, targetFold_all_skipped targets ⟨0, []⟩ [] [] 0 hskip]

/-- Claim C8 witness: a pass over a null slot and a camera slot finishes
with zero placements. -/
theorem claim_C8_witness :
    execute [⟨none⟩, ⟨some exNonMesh⟩] exGrassOne exSettingsEq gZero
      = .finished [] [] 0 ⟨0, []⟩ :=
  claim_C8 [⟨none⟩, ⟨some exNonMesh⟩] exGrassOne exSettingsEq gZero
    (by decide) (by decide) (by decide)

/-! ### Claim C9 — candidate participation requires a non-null object and
positive weight -/

/-- Claim C9: a candidate participates only with a non-null object and
positive weight — every placed instance originates from such an entry — and
a candidate list whose entries all have null objects cancels the pass with
the no-valid-candidates error even if the weights are positive. -/
theorem claim_C9 (targets : List TargetRef) (grassItems : List GrassItem)
    (s : Settings) (g : Gen) :
    ((targets ≠ [] ∧ ∀ gi ∈ grassItems, gi.obj = none) →
      execute targets grassItems s g = .cancelled .noValidCandidates) ∧
    (∀ inst ∈ resultInstances (execute targets grassItems s g),
      ∃ gi ∈ grassItems, gi.obj = some inst.source ∧ 0 < gi.weight) := by
  constructor
  · rintro ⟨hne, hnull⟩
    have hv : validGrass grassItems = [] := by
      rw [validGrass, List.filter_eq_nil_iff]
      intro gi hgi
      simp [hnull gi hgi]
    rw [execute, if_neg hne]
    dsimp only
    rw [if_pos hv]
  · refine execute_inv fun t st st' inst hstep => ?_
    obtain ⟨gi, hgi, hobj⟩ := placeStep_some_source hstep
    obtain ⟨hmem, -, hw⟩ := validGrass_mem hgi
    exact ⟨gi, hmem, hobj, hw⟩

/-- Claim C9 witness: the all-null candidate list with positive weight at a
concrete pass. -/
theorem claim_C9_witness :
    execute exTargets exGrassNull exSettingsEq gZero
      = .cancelled .noValidCandidates :=
  (claim_C9 exTargets exGrassNull exSettingsEq gZero).1 ⟨by decide, by decide⟩

/-! ### Claim C10 — per-candidate counts sum to the number of placements -/

/-- Claim C10: for every pass, the per-candidate instance counts sum to the
total number of placed instances, both in the aggregated report of `execute`
and per surface in `generate_on_object`. -/
theorem claim_C10 (targets : List TargetRef) (grassItems : List GrassItem)
    (s : Settings) (g : Gen) :
    sumCounts (resultCounts (execute targets grassItems s g))
        = (resultInstances (execute targets grassItems s g)).length ∧
    ∀ (t : TargetObj) (valid : List GrassItem) (tw : ℚ) (count : ℕ) (st : RState),
      sumCounts (generate_on_object g t valid tw s count st).1.2
        = (generate_on_object g t valid tw s count st).1.1.length := by
  constructor
  · rw [execute]
    split
    · rfl
    · dsimp only
      split
      · rfl
      · split
        · rfl
        · dsimp only [resultCounts, resultInstances]
          have := targetFold_counts g (validGrass grassItems)
            ((validGrass grassItems).map GrassItem.weight).sum s targets
            ⟨0, []⟩ [] [] 0
          simpa [sumCounts] using this
  · intro t valid tw count st
    exact generate_on_object_counts g t valid tw s count st

/-! ### Placement budget: the loop always places its full budget -/

/-- With a nonempty face list of nonzero total area and a nonempty valid
candidate list, one placement iteration always produces an instance (the
face and candidate walks both have total fallbacks). -/
theorem placeStep_isSome {g : Gen} {target : TargetObj} {valid : List GrassItem}
    {tw : ℚ} {s : Settings} {faces : List Tri} {ta : ℚ}
    (hne : faces ≠ []) (hta : ta ≠ 0) (hv : valid ≠ [])
    (hsome : ∀ gi ∈ valid, gi.obj.isSome = true) (st : RState) :
    ∃ inst st', placeStep g target valid tw s faces ta st = (some inst, st') := by
  obtain ⟨f, hf, -⟩ := @select_weighted_face_spec g faces ta st hne hta
  rw [placeStep, hf]
  dsimp only
  obtain ⟨go, hg, -⟩ := @select_weighted_grass_spec g valid tw _ hv hsome
  rw [hg]
  exact ⟨_, _, rfl⟩

theorem placeLoop_length {g : Gen} {target : TargetObj} {valid : List GrassItem}
    {tw : ℚ} {s : Settings} {faces : List Tri} {ta : ℚ}
    (hne : faces ≠ []) (hta : ta ≠ 0) (hv : valid ≠ [])
    (hsome : ∀ gi ∈ valid, gi.obj.isSome = true) :
    ∀ (n : ℕ) (st : RState) (insts : List GrassInstance) (counts : Counts),
      (placeLoop g target valid tw s faces ta n st insts counts).1.1.length
        = insts.length + n := by
  intro n
  induction n with
  | zero => intro st insts counts; simp [placeLoop]
  | succ n ih =>
    intro st insts counts
    obtain ⟨inst, st', hstep⟩ := placeStep_isSome hne hta hv hsome st
    rw [placeLoop, hstep]
    dsimp only
    rw [ih]
    simp
    omega

/-- The number of instances a surface receives is its full budget, except
that a zero-total-area surface receives zero. -/
theorem generate_on_object_length {g : Gen} {t : TargetObj}
    {valid : List GrassItem} {tw : ℚ} {s : Settings} (count : ℕ) (st : RState)
    (hv : valid ≠ []) (hsome : ∀ gi ∈ valid, gi.obj.isSome = true) :
    (generate_on_object g t valid tw s count st).1.1.length
      = if (t.tris.map Tri.area).sum = 0 then 0 else count := by
  rw [generate_on_object]
  split
  · simp
  · rename_i h
    have hne : t.tris ≠ [] := by
      intro hx
      exact h (by simp [hx])
    have := @placeLoop_length g t valid tw s t.tris ((t.tris.map Tri.area).sum)
      hne h hv hsome count st [] []
    simpa using this

/-! ### Claim C2 — instance count in density mode -/

/-- Density-mode settings with density 1. -/
def exSettingsDens1 : Settings :=
  { use_density_mode := true, density := 1, total_count := 7,
    surface_offset := 0, clumping_factor := 0,
    scale_min := 2, scale_max := 2, random_rotation := false }

/-- Density-mode settings with density 2. -/
def exSettingsDens2 : Settings :=
  { exSettingsDens1 with density := 2 }

/-- A mesh target of total area 3/4 (one triangle). -/
def exTargetFrac : TargetObj :=
  ⟨"small", true, [⟨⟨0, 0, 0⟩, ⟨1, 0, 0⟩, ⟨0, 3 / 2, 0⟩, ⟨0, 0, 1⟩, 3 / 4⟩], exIdMat⟩

/-- Claim C2, counterexample to the claim as stated: a surface of area 3/4
at density 1 receives `int(3/4 * 1) = 0` placements, whereas
`round(3/4 * 1) = 1`; the code truncates with `int()`, it does not round. -/
theorem claim_C2_counterexample :
    (resultInstances (execute [⟨some exTargetFrac⟩] exGrassOne exSettingsDens1 gZero)).length
        = 0 ∧
    round (((exTargetFrac.tris.map Tri.area).sum) * exSettingsDens1.density) = 1 ∧
    ((resultInstances (execute [⟨some exTargetFrac⟩] exGrassOne exSettingsDens1
        gZero)).length : ℤ)
      ≠ round (((exTargetFrac.tris.map Tri.area).sum) * exSettingsDens1.density) := by
  refine ⟨by decide, ?_, ?_⟩
  · norm_num [exTargetFrac, exSettingsDens1, Tri.area, round_eq]
  · have h0 : (resultInstances (execute [⟨some exTargetFrac⟩] exGrassOne
        exSettingsDens1 gZero)).length = 0 := by decide
    rw [h0]
    norm_num [exTargetFrac, exSettingsDens1, Tri.area, round_eq]

/-- Claim C2, amended: in density mode a processed mesh surface receives
exactly `int(total_area * density)` placements — Python `int()` truncation
(identically, `Int.toNat ∘ pyInt`), not rounding; the first conjunct records
that this is precisely the budget `execute`'s target loop passes for the
surface. -/
theorem claim_C2_amended (g : Gen) (valid : List GrassItem) (tw : ℚ)
    (s : Settings) (t : TargetObj) (rest : List TargetRef) (st : RState)
    (insts : List GrassInstance) (counts : Counts) (area : ℚ)
    (hs : s.use_density_mode = true) (hm : t.isMesh = true)
    (hv : valid ≠ []) (hsome : ∀ gi ∈ valid, gi.obj.isSome = true) :
    targetFold g valid tw s (⟨some t⟩ :: rest) st insts counts area
      = targetFold g valid tw s rest
          (generate_on_object g t valid tw s
            ((pyInt (calculate_mesh_area t * s.density)).toNat) st).2
          (insts ++ (generate_on_object g t valid tw s
            ((pyInt (calculate_mesh_area t * s.density)).toNat) st).1.1)
          (mergeCounts counts (generate_on_object g t valid tw s
            ((pyInt (calculate_mesh_area t * s.density)).toNat) st).1.2)
          (area + calculate_mesh_area t) ∧
    (generate_on_object g t valid tw s
        ((pyInt (calculate_mesh_area t * s.density)).toNat) st).1.1.length
      = (pyInt (calculate_mesh_area t * s.density)).toNat := by
  constructor
  · rw [targetFold]
    dsimp only
    rw [if_neg (by simp [hm]), if_pos hs]
  · rw [generate_on_object_length _ _ hv hsome]
    split
    · rename_i h
      have harea : calculate_mesh_area t = 0 := by
        rw [calculate_mesh_area, if_pos hm, h]
      rw [harea]
      simp [pyInt]
    · rfl

/-- Claim C2 witness: a square surface of area 100 at density 2.0 receives
exactly 200 placements. -/
theorem claim_C2_witness :
    (generate_on_object gZero exTargetBig exGrassOne 1 exSettingsDens2
        ((pyInt (calculate_mesh_area exTargetBig * exSettingsDens2.density)).toNat)
        ⟨0, []⟩).1.1.length = 200 := by
  have h := (claim_C2_amended gZero exGrassOne 1 exSettingsDens2 exTargetBig
    [] ⟨0, []⟩ [] [] 0 (by decide) (by decide) (by decide) (by decide)).2
  rw [h]
  decide

/-! ### Claim C5 — zero-area surfaces are silent per-surface no-ops -/

/-- Claim C5: a surface of zero total area produces zero placements and
leaves the stream state untouched (no draws), and removing it from the
target list leaves the whole target loop — hence every other surface's
placements, the counts and the reported area — unchanged. -/
theorem claim_C5 (g : Gen) (valid : List GrassItem) (tw : ℚ) (s : Settings)
    (count : ℕ) (t : TargetObj) (ht : (t.tris.map Tri.area).sum = 0) :
    (∀ st, generate_on_object g t valid tw s count st = (([], []), st)) ∧
    (∀ (pre post : List TargetRef) (st : RState) (insts : List GrassInstance)
       (counts : Counts) (area : ℚ),
      targetFold g valid tw s (pre ++ ⟨some t⟩ :: post) st insts counts area
        = targetFold g valid tw s (pre ++ post) st insts counts area) := by
  have hgen : ∀ st, generate_on_object g t valid tw s count st = (([], []), st) := by
    intro st
    rw [generate_on_object, if_pos ht]
  have hgen' : ∀ (c : ℕ) (st : RState),
      generate_on_object g t valid tw s c st = (([], []), st) := by
    intro c st
    rw [generate_on_object, if_pos ht]
  refine ⟨hgen, ?_⟩
  intro pre
  induction pre with
  | nil =>
    intro post st insts counts area
    rw [List.nil_append, List.nil_append, targetFold]
    dsimp only
    by_cases hm : t.isMesh = false
    · rw [if_pos hm]
    · rw [if_neg hm, hgen']
      have harea : calculate_mesh_area t = 0 := by
        rw [calculate_mesh_area]
        split
        · exact ht
        · rfl
      rw [harea]
      simp [mergeCounts]
  | cons tr rest ih =>
    intro post st insts counts area
    rw [List.cons_append, List.cons_append, targetFold, targetFold]
    rcases tr.obj with _ | t'
    · exact ih post st insts counts area
    · dsimp only
      by_cases hm : t'.isMesh = false
      · rw [if_pos hm, if_pos hm]
        exact ih post st insts counts area
      · rw [if_neg hm, if_neg hm]
        exact ih post _ _ _ _

/-- Claim C5 witness: prepending a degenerate zero-area surface leaves the
target loop's result unchanged. -/
theorem claim_C5_witness :
    targetFold gZero exGrassOne 1 exSettingsEq
        [⟨some exTargetDegenerate⟩, ⟨some exTarget⟩] ⟨0, []⟩ [] [] 0
      = targetFold gZero exGrassOne 1 exSettingsEq [⟨some exTarget⟩] ⟨0, []⟩ [] [] 0 :=
  (claim_C5 gZero exGrassOne 1 exSettingsEq exSettingsEq.total_count
      exTargetDegenerate (by decide)).2 [] [⟨some exTarget⟩] ⟨0, []⟩ [] [] 0

/-! ### Claim C3 — determinism and the fixed draw order

The next three definitions transcribe the claim's stated draw order (they
follow the spec's words, not the code); the theorems below prove the code's
instrumented trace equal to them. -/

/-- The claimed per-instance draw order: face selection, barycentric r1 and
r2, clumping draw only if `clumping_factor > 0`, candidate selection,
rotation draw only if `random_rotation`, scale draw only if
`scale_min != scale_max`. -/
def claimedInstanceDraws (s : Settings) : List DrawKind :=
  [.face, .bary1, .bary2]
    ++ (if 0 < s.clumping_factor then [.clump] else [])
    ++ [.cand]
    ++ (if s.random_rotation then [.rot] else [])
    ++ (if s.scale_min ≠ s.scale_max then [.scaleDraw] else [])

/-- The number of instances the claim expects a target slot to receive:
none for null/non-mesh/zero-area targets, otherwise the surface's budget
(`int(area*density)` in density mode, the configured count otherwise). -/
def surfaceBudget (s : Settings) (tr : TargetRef) : ℕ :=
  match tr.obj with
  | none => 0
  | some t =>
    if t.isMesh = false then 0
    else if (t.tris.map Tri.area).sum = 0 then 0
    else if s.use_density_mode then (pyInt ((t.tris.map Tri.area).sum * s.density)).toNat
    else s.total_count

/-- The claimed draw order of a whole pass: the per-instance block repeated
per instance, per surface, in surface list order. -/
def claimedPassTrace (s : Settings) (targets : List TargetRef) : List DrawKind :=
  (targets.map fun tr =>
    (List.replicate (surfaceBudget s tr) (claimedInstanceDraws s)).flatten).flatten

theorem random_point_on_face_state (g : Gen) (f : Tri) (st : RState) :
    (random_point_on_face g f st).2
      = ⟨st.pos + 2, st.trace ++ [.bary1, .bary2]⟩ := by
  rw [random_point_on_face]
  simp [drawRandom]

theorem apply_clumping_state {g : Gen} {p : Vec3} {f : Tri} {c : ℚ}
    (hc : 0 < c) (st : RState) :
    (apply_clumping g p f c st).2 = ⟨st.pos + 1, st.trace ++ [.clump]⟩ := by
  rw [apply_clumping, if_neg (not_le.mpr hc)]
  simp [drawRandom]

theorem create_grass_instance_state (g : Gen) (grass : GrassObj)
    (location normal : Vec3) (s : Settings) (st : RState) :
    (create_grass_instance g grass location normal s st).2
      = ⟨st.pos
          + ((if 0 < normal.lengthSq ∧ s.random_rotation = true then 1 else 0)
            + (if s.scale_min ≠ s.scale_max then 1 else 0)),
         st.trace
          ++ (if 0 < normal.lengthSq ∧ s.random_rotation = true then [.rot] else [])
          ++ (if s.scale_min ≠ s.scale_max then [.scaleDraw] else [])⟩ := by
  rw [create_grass_instance]
  by_cases h1 : 0 < normal.lengthSq ∧ s.random_rotation = true <;>
    by_cases h2 : s.scale_min ≠ s.scale_max <;>
      simp [drawRandom, drawUniform, h1, h2] <;> omega

/-- Under well-formed host data (unit rotation quaternion, unit face
normals) a placement iteration produces exactly one instance and consumes
exactly the claimed per-instance draw block, in order. -/
theorem placeStep_trace {g : Gen} {target : TargetObj} {valid : List GrassItem}
    {tw : ℚ} {s : Settings} {faces : List Tri} {ta : ℚ}
    (hne : faces ≠ []) (hta : ta ≠ 0) (hv : valid ≠ [])
    (hsome : ∀ gi ∈ valid, gi.obj.isSome = true)
    (hq : target.mat.rotq.normSq = 1)
    (hn : ∀ f ∈ faces, f.normal.lengthSq = 1) (st : RState) :
    ∃ inst, placeStep g target valid tw s faces ta st
      = (some inst, ⟨st.pos + (claimedInstanceDraws s).length,
                     st.trace ++ claimedInstanceDraws s⟩) := by
  obtain ⟨f, hf, hfm⟩ := @select_weighted_face_spec g faces ta st hne hta
  rw [placeStep, hf]
  dsimp only
  have hnorm := normal_world_unit hq (hn f hfm)
  set st1 : RState := ⟨st.pos + 1, st.trace ++ [.face]⟩ with hst1
  have hpc : (if 0 < s.clumping_factor then
        apply_clumping g (random_point_on_face g f st1).1 f s.clumping_factor
          (random_point_on_face g f st1).2
      else random_point_on_face g f st1).2
      = ⟨st1.pos + 2 + (if 0 < s.clumping_factor then 1 else 0),
         st1.trace ++ [.bary1, .bary2]
          ++ (if 0 < s.clumping_factor then [.clump] else [])⟩ := by
    by_cases hc : 0 < s.clumping_factor
    · simp [if_pos hc, apply_clumping_state hc, random_point_on_face_state]
    · simp [if_neg hc, random_point_on_face_state]
  obtain ⟨go, hg, -⟩ := @select_weighted_grass_spec g valid tw
    ((if 0 < s.clumping_factor then
        apply_clumping g (random_point_on_face g f st1).1 f s.clumping_factor
          (random_point_on_face g f st1).2
      else random_point_on_face g f st1).2) hv hsome
  rw [hg]
  dsimp only
  refine ⟨_, Prod.ext rfl ?_⟩
  rw [hpc, create_grass_instance_state, hnorm.2, hst1]
  have h01 : (0 : ℚ) < 1 := by norm_num
  by_cases hc : 0 < s.clumping_factor <;>
    by_cases hr : s.random_rotation = true <;>
      by_cases hsc : s.scale_min ≠ s.scale_max <;>
        simp [claimedInstanceDraws, hc, hr, hsc, h01, RState.mk.injEq,
          List.append_assoc] <;>
        all_goals omega

theorem flatten_replicate_length {α : Type} (n : ℕ) (l : List α) :
    ((List.replicate n l).flatten).length = n * l.length := by
  induction n with
  | zero => simp
  | succ n ih => simp [List.replicate_succ, ih, Nat.succ_mul]; omega

theorem placeLoop_trace {g : Gen} {target : TargetObj} {valid : List GrassItem}
    {tw : ℚ} {s : Settings} {faces : List Tri} {ta : ℚ}
    (hne : faces ≠ []) (hta : ta ≠ 0) (hv : valid ≠ [])
    (hsome : ∀ gi ∈ valid, gi.obj.isSome = true)
    (hq : target.mat.rotq.normSq = 1)
    (hn : ∀ f ∈ faces, f.normal.lengthSq = 1) :
    ∀ (n : ℕ) (st : RState) (insts : List GrassInstance) (counts : Counts),
      (placeLoop g target valid tw s faces ta n st insts counts).2
        = ⟨st.pos + n * (claimedInstanceDraws s).length,
           st.trace ++ (List.replicate n (claimedInstanceDraws s)).flatten⟩ := by
  intro n
  induction n with
  | zero => intro st insts counts; simp [placeLoop]
  | succ n ih =>
    intro st insts counts
    obtain ⟨inst, hstep⟩ := placeStep_trace hne hta hv hsome hq hn st
    rw [placeLoop, hstep]
    dsimp only
    rw [ih]
    simp only [RState.mk.injEq]
    constructor
    · ring
    · simp [List.replicate_succ, List.append_assoc]

theorem generate_on_object_trace {g : Gen} {t : TargetObj}
    {valid : List GrassItem} {tw : ℚ} {s : Settings}
    (hv : valid ≠ []) (hsome : ∀ gi ∈ valid, gi.obj.isSome = true)
    (hq : t.mat.rotq.normSq = 1)
    (hn : ∀ f ∈ t.tris, f.normal.lengthSq = 1) (count : ℕ) (st : RState) :
    (generate_on_object g t valid tw s count st).2
      = ⟨st.pos + (if (t.tris.map Tri.area).sum = 0 then 0 else count)
            * (claimedInstanceDraws s).length,
         st.trace ++ (List.replicate
            (if (t.tris.map Tri.area).sum = 0 then 0 else count)
            (claimedInstanceDraws s)).flatten⟩ := by
  rw [generate_on_object]
  split
  · simp
  · rename_i h
    have hne : t.tris ≠ [] := by
      intro hx
      exact h (by simp [hx])
    exact placeLoop_trace hne h hv hsome hq hn count st [] []

theorem targetFold_trace {g : Gen} {valid : List GrassItem} {tw : ℚ}
    {s : Settings} (hv : valid ≠ [])
    (hsome : ∀ gi ∈ valid, gi.obj.isSome = true) :
    ∀ (targets : List TargetRef),
      (∀ tr ∈ targets, ∀ t, tr.obj = some t →
        t.mat.rotq.normSq = 1 ∧ ∀ f ∈ t.tris, f.normal.lengthSq = 1) →
      ∀ (st : RState) (insts : List GrassInstance) (counts : Counts) (area : ℚ),
      (targetFold g valid tw s targets st insts counts area).2
        = ⟨st.pos + (claimedPassTrace s targets).length,
           st.trace ++ claimedPassTrace s targets⟩ := by
  intro targets
  induction targets with
  | nil =>
    intro _ st insts counts area
    simp [targetFold, claimedPassTrace]
  | cons tr rest ih =>
    intro hwf st insts counts area
    have hwfr : ∀ tr' ∈ rest, ∀ t, tr'.obj = some t →
        t.mat.rotq.normSq = 1 ∧ ∀ f ∈ t.tris, f.normal.lengthSq = 1 :=
      fun tr' h' => hwf tr' (List.mem_cons_of_mem _ h')
    have hPT : claimedPassTrace s (tr :: rest)
        = (List.replicate (surfaceBudget s tr) (claimedInstanceDraws s)).flatten
          ++ claimedPassTrace s rest := by
      simp [claimedPassTrace]
    rw [targetFold]
    rcases htr : tr.obj with _ | t
    · have hB : surfaceBudget s tr = 0 := by rw [surfaceBudget, htr]
      rw [ih hwfr st insts counts area, hPT, hB]
      simp
    · dsimp only
      obtain ⟨hq, hn⟩ := hwf tr (List.mem_cons_self _ _) t htr
      by_cases hm : t.isMesh = false
      · have hB : surfaceBudget s tr = 0 := by
          rw [surfaceBudget, htr]
          dsimp only
          rw [if_pos hm]
        rw [if_pos hm, ih hwfr st insts counts area, hPT, hB]
        simp
      · rw [if_neg hm]
        have hB : surfaceBudget s tr
            = (if (t.tris.map Tri.area).sum = 0 then 0
              else if s.use_density_mode = true
                then (pyInt ((t.tris.map Tri.area).sum * s.density)).toNat
                else s.total_count) := by
          rw [surfaceBudget, htr]
          dsimp only
          rw [if_neg hm]
        have hca : calculate_mesh_area t = (t.tris.map Tri.area).sum := by
          rw [calculate_mesh_area, if_pos (by revert hm; cases t.isMesh <;> simp)]
        rw [ih hwfr _ _ _ _, generate_on_object_trace hv hsome hq hn _ st, hPT, hB, hca]
        simp only [RState.mk.injEq, List.length_append, flatten_replicate_length]
        constructor
        · ring
        · simp [List.append_assoc]

/-- Claim C3: with identical surfaces, candidates and config, two passes
over identical draw streams produce identical results (the pass is a pure
function of its inputs and the seeded stream); and, for well-formed host
data (unit rotation quaternions and unit face normals, as the host
guarantees), a finished pass consumes the stream contiguously from position
0 — the seed is consumed once, before surface iteration — with the draws in
exactly the claimed order: face selection, barycentric r1, barycentric r2,
clumping draw (only if `clumping_factor > 0`), candidate selection, rotation
draw (only if `random_rotation`), scale draw (only if
`scale_min != scale_max`), per instance, per surface, in surface list
order. -/
theorem claim_C3 (targets : List TargetRef) (grassItems : List GrassItem)
    (s : Settings) (g g' : Gen) (hgg : ∀ k, g k = g' k)
    (hwf : ∀ tr ∈ targets, ∀ t, tr.obj = some t →
      t.mat.rotq.normSq = 1 ∧ ∀ f ∈ t.tris, f.normal.lengthSq = 1) :
    execute targets grassItems s g = execute targets grassItems s g' ∧
    (∀ insts counts ar st,
      execute targets grassItems s g = .finished insts counts ar st →
        st = ⟨(claimedPassTrace s targets).length, claimedPassTrace s targets⟩) := by
  constructor
  · have : g = g' := funext hgg
    rw [this]
  · intro insts counts ar st h
    by_cases hne : targets = []
    · rw [execute, if_pos hne] at h
      exact absurd h (by simp)
    · by_cases hvg : validGrass grassItems = []
      · rw [execute, if_neg hne] at h
        dsimp only at h
        rw [if_pos hvg] at h
        exact absurd h (by simp)
      · rw [execute_of_valid s g hne hvg] at h
        injection h with h1 h2 h3 h4
        rw [← h4, targetFold_trace (g := g) hvg
          (fun gi hgi => (validGrass_mem hgi).2.1) targets hwf ⟨0, []⟩ [] [] 0]
        simp

/-- A second all-zeros stream, pointwise equal to `gZero` but a different
closed term. -/
def gZero' : Gen := fun k => 0 * (k : ℚ)

/-- Final stream state of a result. -/
def resultFinal : ExecResult → RState
  | .cancelled _ => ⟨0, []⟩
  | .finished _ _ _ st => st

/-- Claim C3 witness: the determinism and trace statements at a concrete
pass. -/
theorem claim_C3_witness :
    execute exTargets exGrassOne exSettingsEq gZero
        = execute exTargets exGrassOne exSettingsEq gZero' ∧
    resultFinal (execute exTargets exGrassOne exSettingsEq gZero)
        = ⟨(claimedPassTrace exSettingsEq exTargets).length,
           claimedPassTrace exSettingsEq exTargets⟩ := by
  have h := claim_C3 exTargets exGrassOne exSettingsEq gZero gZero'
    (fun k => by simp [gZero, gZero']) (by decide)
  refine ⟨h.1, ?_⟩
  rcases hE : execute exTargets exGrassOne exSettingsEq gZero with e | ⟨a, b, c, st⟩
  · cases e <;> exact absurd hE (by decide)
  · dsimp only [resultFinal]
    exact h.2 a b c st hE

/-! ### Claim C6 — barycentric sampling and convex-hull containment

The convex hull of a vertex list is expressed through explicit nonnegative
weight lists summing to 1. -/

/-- Weighted combination of a list of points. -/
def affineCombo : List ℚ → List Vec3 → Vec3
  | c :: cs, v :: vs => c • v + affineCombo cs vs
  | _, _ => 0

/-- Membership in the convex hull of a finite point list. -/
def inHull (pts : List Vec3) (p : Vec3) : Prop :=
  ∃ w : List ℚ, w.length = pts.length ∧ (∀ c ∈ w, 0 ≤ c) ∧ w.sum = 1
    ∧ p = affineCombo w pts

/-- The world-space vertices of a target surface. -/
def worldVerts (t : TargetObj) : List Vec3 :=
  (t.tris.map fun f => [t.mat.apply f.v0, t.mat.apply f.v1, t.mat.apply f.v2]).flatten

theorem affineCombo_zeros (l : List Vec3) :
    affineCombo (List.replicate l.length 0) l = 0 := by
  induction l with
  | nil => rfl
  | cons v vs ih =>
    show (0 : ℚ) • v + affineCombo (List.replicate vs.length 0) vs = 0
    rw [ih]
    ext <;> simp

theorem affineCombo_append {w1 : List ℚ} {l1 : List Vec3}
    (h : w1.length = l1.length) (w2 : List ℚ) (l2 : List Vec3) :
    affineCombo (w1 ++ w2) (l1 ++ l2) = affineCombo w1 l1 + affineCombo w2 l2 := by
  induction w1 generalizing l1 with
  | nil =>
    rcases l1 with _ | ⟨v, vs⟩
    · show affineCombo w2 l2 = affineCombo [] [] + affineCombo w2 l2
      ext <;> simp [affineCombo]
    · simp at h
  | cons c cs ih =>
    rcases l1 with _ | ⟨v, vs⟩
    · simp at h
    · simp only [List.length_cons, Nat.add_right_cancel_iff] at h
      show c • v + affineCombo (cs ++ w2) (vs ++ l2)
        = (c • v + affineCombo cs vs) + affineCombo w2 l2
      rw [ih h]
      ext <;> simp <;> ring

/-- Hull membership is preserved by widening the point list on both sides. -/
theorem inHull_of_slice {pre mid post : List Vec3} {p : Vec3}
    (h : inHull mid p) : inHull (pre ++ mid ++ post) p := by
  obtain ⟨w, hlen, hpos, hsum, hcombo⟩ := h
  refine ⟨List.replicate pre.length 0 ++ w ++ List.replicate post.length 0,
    ?_, ?_, ?_, ?_⟩
  · simp [hlen]
  · intro c hc
    rcases List.mem_append.mp hc with hc | hc
    · rcases List.mem_append.mp hc with hc | hc
      · rw [List.eq_of_mem_replicate hc]
      · exact hpos c hc
    · rw [List.eq_of_mem_replicate hc]
  · simp [hsum]
  · rw [affineCombo_append (by simp [hlen]) _ _,
      affineCombo_append (by simp [hlen]) _ _,
      affineCombo_zeros, affineCombo_zeros, hcombo]
    ext <;> simp

theorem affineCombo_three (a b c : ℚ) (x y z : Vec3) :
    affineCombo [a, b, c] [x, y, z] = a • x + b • y + c • z := by
  show a • x + (b • y + (c • z + 0)) = a • x + b • y + c • z
  ext <;> simp <;> ring

/-- A convex combination of the world vertices of one of the surface's
triangles lies in the hull of the surface's world vertices. -/
theorem inHull_tri_combo {t : TargetObj} {f : Tri} (hf : f ∈ t.tris)
    {a b c : ℚ} (ha : 0 ≤ a) (hb : 0 ≤ b) (hc : 0 ≤ c) (hsum : a + b + c = 1) :
    inHull (worldVerts t)
      (a • t.mat.apply f.v0 + b • t.mat.apply f.v1 + c • t.mat.apply f.v2) := by
  obtain ⟨l1, l2, hsplit⟩ := List.append_of_mem hf
  have hw : worldVerts t
      = (l1.map fun f' => [t.mat.apply f'.v0, t.mat.apply f'.v1, t.mat.apply f'.v2]).flatten
        ++ [t.mat.apply f.v0, t.mat.apply f.v1, t.mat.apply f.v2]
        ++ (l2.map fun f' => [t.mat.apply f'.v0, t.mat.apply f'.v1, t.mat.apply f'.v2]).flatten := by
    rw [worldVerts, hsplit]
    simp
  rw [hw]
  refine inHull_of_slice ⟨[a, b, c], rfl, ?_, ?_, ?_⟩
  · intro u hu
    simp only [List.mem_cons, List.not_mem_nil, or_false] at hu
    rcases hu with rfl | rfl | rfl <;> assumption
  · show a + (b + (c + 0)) = 1
    linarith
  · rw [affineCombo_three]

/-- The world matrix acts affinely: it maps a unit-sum weighted combination
of points to the same combination of the images. -/
theorem WorldMatrix.apply_affine (m : WorldMatrix) {a b c : ℚ}
    (h : a + b + c = 1) (x y z : Vec3) :
    m.apply (a • x + b • y + c • z)
      = a • m.apply x + b • m.apply y + c • m.apply z := by
  have hc3 : c = 1 - a - b := by linarith
  subst hc3
  ext <;> simp [WorldMatrix.apply, Vec3.dot] <;> ring

/-- The barycentric sample of `random_point_on_face`: two draws in `[0,1)`,
both reflected when their sum exceeds 1, yielding nonnegative weights
`r1, r2, 1-r1-r2` summing to 1. -/
theorem random_point_on_face_spec {g : Gen} (hg : ∀ k, 0 ≤ g k ∧ g k < 1)
    (f : Tri) (st : RState) :
    ∃ r1 r2 : ℚ, 0 ≤ r1 ∧ 0 ≤ r2 ∧ r1 + r2 ≤ 1 ∧
      (r1, r2) = (if g st.pos + g (st.pos + 1) > 1
        then (1 - g st.pos, 1 - g (st.pos + 1))
        else (g st.pos, g (st.pos + 1))) ∧
      (random_point_on_face g f st).1
        = r1 • f.v0 + r2 • f.v1 + (1 - r1 - r2) • f.v2 := by
  obtain ⟨h10, h11⟩ := hg st.pos
  obtain ⟨h20, h21⟩ := hg (st.pos + 1)
  rw [random_point_on_face]
  dsimp only [drawRandom]
  by_cases hgt : g st.pos + g (st.pos + 1) > 1
  · refine ⟨1 - g st.pos, 1 - g (st.pos + 1), by linarith, by linarith, by linarith,
      by rw [if_pos hgt], ?_⟩
    rw [if_pos hgt]
  · refine ⟨g st.pos, g (st.pos + 1), h10, h20, by linarith,
      by rw [if_neg hgt], ?_⟩
    rw [if_neg hgt]

/-- The local sample point after the optional clumping lerp is still a
convex combination of the triangle's vertices. -/
theorem localPoint_combo {g : Gen} (hg : ∀ k, 0 ≤ g k ∧ g k < 1)
    {s : Settings} (hc0 : 0 ≤ s.clumping_factor) (hc1 : s.clumping_factor ≤ 1)
    (f : Tri) (st : RState) :
    ∃ a b c : ℚ, 0 ≤ a ∧ 0 ≤ b ∧ 0 ≤ c ∧ a + b + c = 1 ∧
      (if 0 < s.clumping_factor then
          apply_clumping g (random_point_on_face g f st).1 f s.clumping_factor
            (random_point_on_face g f st).2
        else random_point_on_face g f st).1
      = a • f.v0 + b • f.v1 + c • f.v2 := by
  obtain ⟨r1, r2, h1, h2, h12, -, hpt⟩ := random_point_on_face_spec hg f st
  by_cases hcf : 0 < s.clumping_factor
  · rw [if_pos hcf, apply_clumping, if_neg (not_le.mpr hcf)]
    dsimp only [drawRandom]
    set u := g (random_point_on_face g f st).2.pos with hu
    obtain ⟨hu0, hu1⟩ := hg (random_point_on_face g f st).2.pos
    rw [← hu] at hu0 hu1
    set tt := s.clumping_factor * u with htt
    have ht0 : 0 ≤ tt := mul_nonneg hc0 hu0
    have ht1 : tt < 1 := by
      calc tt ≤ 1 * u := mul_le_mul_of_nonneg_right hc1 hu0
      _ = u := one_mul u
      _ < 1 := hu1
    refine ⟨(1 - tt) * r1 + tt / 3, (1 - tt) * r2 + tt / 3,
      (1 - tt) * (1 - r1 - r2) + tt / 3, ?_, ?_, ?_, by ring, ?_⟩
    · have : 0 ≤ (1 - tt) * r1 := mul_nonneg (by linarith) h1
      linarith
    · have : 0 ≤ (1 - tt) * r2 := mul_nonneg (by linarith) h2
      linarith
    · have : 0 ≤ (1 - tt) * (1 - r1 - r2) := mul_nonneg (by linarith) (by linarith)
      linarith
    · rw [hpt]
      ext <;> simp [Vec3.lerp, Tri.centerMedian] <;> ring
  · rw [if_neg hcf]
    exact ⟨r1, r2, 1 - r1 - r2, h1, h2, by linarith, by ring, hpt⟩

theorem create_grass_instance_location (g : Gen) (grass : GrassObj)
    (location normal : Vec3) (s : Settings) (st : RState) :
    (create_grass_instance g grass location normal s st).1.location = location := by
  rw [create_grass_instance]

theorem create_grass_instance_normal (g : Gen) (grass : GrassObj)
    (location normal : Vec3) (s : Settings) (st : RState) :
    (create_grass_instance g grass location normal s st).1.normal = normal := by
  rw [create_grass_instance]

/-- Every instance produced by a placement iteration has a unit world
normal, and its location is a convex combination of the world vertices of
one of the faces, translated along that normal by exactly the surface
offset. -/
theorem placeStep_hull {g : Gen} {target : TargetObj} {valid : List GrassItem}
    {tw : ℚ} {s : Settings} {faces : List Tri} {ta : ℚ} {st st' : RState}
    {inst : GrassInstance}
    (hg : ∀ k, 0 ≤ g k ∧ g k < 1)
    (hc0 : 0 ≤ s.clumping_factor) (hc1 : s.clumping_factor ≤ 1)
    (hq : target.mat.rotq.normSq = 1)
    (hn : ∀ f ∈ faces, f.normal.lengthSq = 1)
    (h : placeStep g target valid tw s faces ta st = (some inst, st')) :
    inst.normal.lengthSq = 1 ∧
    ∃ f ∈ faces, ∃ a b c : ℚ, 0 ≤ a ∧ 0 ≤ b ∧ 0 ≤ c ∧ a + b + c = 1 ∧
      inst.location = (a • target.mat.apply f.v0 + b • target.mat.apply f.v1
        + c • target.mat.apply f.v2) + s.surface_offset • inst.normal := by
  rw [placeStep] at h
  split at h
  · simp at h
  · rename_i face st1 hfsel
    dsimp only at h
    split at h
    · simp at h
    · rename_i gobj st4 hgsel
      injection h with h1 h2
      injection h1 with h1
      have hfm := select_weighted_face_some_mem hfsel
      have hunit := normal_world_unit hq (hn face hfm)
      obtain ⟨a, b, c, ha, hb, hc, hsum, hcombo⟩ :=
        localPoint_combo hg hc0 hc1 face st1
      have hnrm : inst.normal = (target.mat.rotq.rot face.normal).normalize := by
        rw [← h1, create_grass_instance_normal]
      constructor
      · rw [hnrm]
        exact hunit.2
      · refine ⟨face, hfm, a, b, c, ha, hb, hc, hsum, ?_⟩
        rw [hnrm, ← h1, create_grass_instance_location, hcombo,
          target.mat.apply_affine hsum]
        by_cases hoff : s.surface_offset ≠ 0
        · rw [if_pos hoff]
        · rw [if_neg hoff]
          push_neg at hoff
          rw [hoff]
          ext <;> simp

/-- Claim C6: the local sample point is the barycentric combination
`r1*v0 + r2*v1 + (1-r1-r2)*v2` of the selected triangle's vertices, with
`r1, r2` the two stream draws, both reflected when `r1+r2 > 1`, so the
weights are nonnegative and sum to 1; consequently, every placed instance's
world position lies in the convex hull of the surface's world vertices
translated along its (unit) world normal by exactly `surface_offset`. -/
theorem claim_C6 (g : Gen) (t : TargetObj) (valid : List GrassItem) (tw : ℚ)
    (s : Settings) (count : ℕ) (st : RState)
    (hg : ∀ k, 0 ≤ g k ∧ g k < 1)
    (hc0 : 0 ≤ s.clumping_factor) (hc1 : s.clumping_factor ≤ 1)
    (hq : t.mat.rotq.normSq = 1)
    (hn : ∀ f ∈ t.tris, f.normal.lengthSq = 1) :
    (∀ (f : Tri) (st' : RState),
      ∃ r1 r2 : ℚ, 0 ≤ r1 ∧ 0 ≤ r2 ∧ r1 + r2 ≤ 1 ∧
        (r1, r2) = (if g st'.pos + g (st'.pos + 1) > 1
          then (1 - g st'.pos, 1 - g (st'.pos + 1))
          else (g st'.pos, g (st'.pos + 1))) ∧
        (random_point_on_face g f st').1
          = r1 • f.v0 + r2 • f.v1 + (1 - r1 - r2) • f.v2) ∧
    ∀ inst ∈ (generate_on_object g t valid tw s count st).1.1,
      inst.normal.lengthSq = 1 ∧
      ∃ p, inHull (worldVerts t) p
        ∧ inst.location = p + s.surface_offset • inst.normal := by
  constructor
  · exact fun f st' => random_point_on_face_spec hg f st'
  · refine generate_on_object_inv fun st1 st2 inst hstep => ?_
    obtain ⟨hunit, f, hf, a, b, c, ha, hb, hc, hsum, hloc⟩ :=
      placeStep_hull hg hc0 hc1 hq hn hstep
    exact ⟨hunit, _, inHull_tri_combo hf ha hb hc hsum, hloc⟩

/-- The single instance the concrete C6 pass places. -/
def exInstC6 : GrassInstance :=
  ⟨exGrassObj, ⟨0, 2, 0⟩, ⟨0, 0, 1⟩, none, ⟨1, 1, 1⟩⟩

/-- Claim C6 witness: the barycentric and hull statements at a concrete
pass. -/
theorem claim_C6_witness :
    (random_point_on_face gZero exTri ⟨0, []⟩).1
        = (0 : ℚ) • exTri.v0 + (0 : ℚ) • exTri.v1 + (1 - 0 - 0 : ℚ) • exTri.v2 ∧
    (generate_on_object gZero exTarget exGrassOne 1 exSettingsEq 1 ⟨0, []⟩).1.1
        = [exInstC6] ∧
    exInstC6.normal.lengthSq = 1 ∧
    ∃ p, inHull (worldVerts exTarget) p
      ∧ exInstC6.location = p + exSettingsEq.surface_offset • exInstC6.normal := by
  have h := claim_C6 gZero exTarget exGrassOne 1 exSettingsEq 1 ⟨0, []⟩
    (fun _ => ⟨le_refl 0, by norm_num [gZero]⟩) (by norm_num [exSettingsEq])
    (by norm_num [exSettingsEq]) (by decide) (by decide)
  have hlist : (generate_on_object gZero exTarget exGrassOne 1 exSettingsEq 1
      ⟨0, []⟩).1.1 = [exInstC6] := by decide
  refine ⟨?_, hlist, ?_⟩
  · obtain ⟨r1, r2, -, -, -, hr, heq⟩ := h.1 exTri ⟨0, []⟩
    rw [if_neg (by norm_num [gZero])] at hr
    injection hr with hr1 hr2
    rw [heq, hr1, hr2]
    simp [gZero]
  · have hmem : exInstC6 ∈ (generate_on_object gZero exTarget exGrassOne 1
        exSettingsEq 1 ⟨0, []⟩).1.1 := by
      rw [hlist]
      exact List.mem_singleton.mpr rfl
    exact h.2 exInstC6 hmem

/-! ### Claim C7 — orientation of a placed instance

The orientation mathematics of `create_grass_instance` is transcendental
(mathutils `rotation_difference`, `Matrix.Rotation(...).to_quaternion()`),
so it is modelled over `ℝ`, parameterized by the world normal, the
`random_rotation` flag and the raw rotation draw `u` recorded in
`GrassInstance.rotDraw` (the drawn angle is `uniform(0, 2π) = 2π * u`).
Matrix construction followed by quaternion extraction is modelled directly
as the axis-angle quaternion; the extraction can at most flip the
quaternion's sign, which neither the rotation action nor the applied
`rotation_euler` can observe, and all statements below are at the level of
the rotation action. -/

/-- Vector of three real coordinates. -/
structure Vec3R where
  x : ℝ
  y : ℝ
  z : ℝ

@[ext]
theorem Vec3R.extR {a b : Vec3R} (hx : a.x = b.x) (hy : a.y = b.y)
    (hz : a.z = b.z) : a = b := by
  cases a; cases b; simp_all

instance : SMul ℝ Vec3R := ⟨fun c v => ⟨c * v.x, c * v.y, c * v.z⟩⟩

instance : Neg Vec3R := ⟨fun v => ⟨-v.x, -v.y, -v.z⟩⟩

@[simp] theorem Vec3R.smulR_x (c : ℝ) (v : Vec3R) : (c • v).x = c * v.x := rfl

@[simp] theorem Vec3R.smulR_y (c : ℝ) (v : Vec3R) : (c • v).y = c * v.y := rfl

@[simp] theorem Vec3R.smulR_z (c : ℝ) (v : Vec3R) : (c • v).z = c * v.z := rfl

/-- Dot product. -/
def Vec3R.dot (a b : Vec3R) : ℝ := a.x * b.x + a.y * b.y + a.z * b.z

/-- Cross product (mathutils `Vector.cross`). -/
def crossR (a b : Vec3R) : Vec3R :=
  ⟨a.y * b.z - a.z * b.y, a.z * b.x - a.x * b.z, a.x * b.y - a.y * b.x⟩

/-- Squared length. -/
def lengthSqR (v : Vec3R) : ℝ := v.x * v.x + v.y * v.y + v.z * v.z

/-- Length. -/
noncomputable def normR (v : Vec3R) : ℝ := Real.sqrt (lengthSqR v)

/-- mathutils vector normalization over `ℝ` (zero maps to zero). -/
noncomputable def normalizeR (v : Vec3R) : Vec3R :=
  if normR v = 0 then v else (1 / normR v) • v

/-- Quaternion with real components. -/
structure QuatR where
  w : ℝ
  x : ℝ
  y : ℝ
  z : ℝ

@[ext]
theorem QuatR.extQ {p q : QuatR} (hw : p.w = q.w) (hx : p.x = q.x)
    (hy : p.y = q.y) (hz : p.z = q.z) : p = q := by
  cases p; cases q; simp_all

/-- Hamilton product (mathutils `quaternion @ quaternion`): the composite
rotation applies the right factor first. -/
def qmulR (p q : QuatR) : QuatR :=
  ⟨p.w * q.w - p.x * q.x - p.y * q.y - p.z * q.z,
   p.w * q.x + p.x * q.w + p.y * q.z - p.z * q.y,
   p.w * q.y - p.x * q.z + p.y * q.w + p.z * q.x,
   p.w * q.z + p.x * q.y - p.y * q.x + p.z * q.w⟩

/-- Quaternion conjugate. -/
def qconjR (q : QuatR) : QuatR := ⟨q.w, -q.x, -q.y, -q.z⟩

/-- Squared quaternion norm. -/
def qnormSqR (q : QuatR) : ℝ := q.w * q.w + q.x * q.x + q.y * q.y + q.z * q.z

/-- Rotation action of a (unit) quaternion on a vector: the vector part of
`q * (0,v) * q.conjugated` (mathutils `quaternion @ vector`). -/
def rotR (q : QuatR) (v : Vec3R) : Vec3R :=
  let p := qmulR (qmulR q ⟨0, v.x, v.y, v.z⟩) (qconjR q)
  ⟨p.x, p.y, p.z⟩

/-- The rotation action is multiplicative: the right factor of a quaternion
product is the rotation applied first. -/
theorem rotR_mul (p q : QuatR) (v : Vec3R) :
    rotR (qmulR p q) v = rotR p (rotR q v) := by
  ext <;> simp [rotR, qmulR, qconjR] <;> ring

/-- Rotating about an axis parallel to the vector scales it by the squared
quaternion norm (so a unit rotation about `v` fixes `v`). -/
theorem rotR_parallel (w s : ℝ) (v : Vec3R) :
    rotR ⟨w, s * v.x, s * v.y, s * v.z⟩ v
      = (w ^ 2 + s ^ 2 * lengthSqR v) • v := by
  ext <;> simp [rotR, qmulR, qconjR, lengthSqR] <;> ring

/-- Rotation action of a quaternion with vanishing z-component on a vector
along the z-axis, in closed form. -/
theorem rotR_wab (w a b t : ℝ) :
    rotR ⟨w, a, b, 0⟩ ⟨0, 0, t⟩
      = ⟨2 * w * b * t, -(2 * w * a * t), (w ^ 2 - a ^ 2 - b ^ 2) * t⟩ := by
  ext <;> simp [rotR, qmulR, qconjR] <;> ring

theorem normalizeR_of_unit {v : Vec3R} (h : lengthSqR v = 1) :
    normalizeR v = v := by
  have hn : normR v = 1 := by rw [normR, h, Real.sqrt_one]
  rw [normalizeR, if_neg (by rw [hn]; norm_num), hn]
  ext <;> simp

/-- Blender `ortho_v3_v3`: a vector orthogonal to the input, chosen by its
dominant axis (only reachable in the antiparallel degenerate case, which the
theorems below exclude). -/
noncomputable def orthoR (v : Vec3R) : Vec3R :=
  if |v.x| ≥ |v.y| ∧ |v.x| ≥ |v.z| then ⟨-v.y - v.z, v.x, v.x⟩
  else if |v.y| ≥ |v.z| then ⟨v.y, -v.x - v.z, v.y⟩
  else ⟨v.z, v.z, -v.x - v.y⟩

/-- Blender `axis_angle_normalized_to_quat`: the quaternion
`(cos(θ/2), sin(θ/2)·axis)` for a unit axis. -/
noncomputable def axisAngleQuatR (θ : ℝ) (axis : Vec3R) : QuatR :=
  ⟨Real.cos (θ / 2), Real.sin (θ / 2) * axis.x,
   Real.sin (θ / 2) * axis.y, Real.sin (θ / 2) * axis.z⟩

open Classical in
/-- mathutils `Vector.rotation_difference` (Blender
`rotation_between_vecs_to_quat`): normalize both inputs; with a nonzero
cross product, the axis-angle quaternion about the normalized cross with the
angle between the vectors (`angle_normalized_v3v3`, i.e. `arccos` of the
dot); degenerate fallbacks: identity for parallel, a π rotation about an
orthogonal axis for antiparallel. -/
noncomputable def rotation_difference (a b : Vec3R) : QuatR :=
  let a' := normalizeR a
  let b' := normalizeR b
  let axis := crossR a' b'
  if axis = ⟨0, 0, 0⟩ then
    if 0 ≤ a'.dot b' then ⟨1, 0, 0, 0⟩
    else axisAngleQuatR Real.pi (normalizeR (orthoR a'))
  else axisAngleQuatR (Real.arccos (a'.dot b')) (normalizeR axis)

/-- `Matrix.Rotation(angle, 4, axis).to_quaternion()`: the rotation matrix
about the normalized axis, re-extracted as a quaternion — the axis-angle
quaternion up to an unobservable sign. -/
noncomputable def matrixRotationQuat (θ : ℝ) (axis : Vec3R) : QuatR :=
  axisAngleQuatR θ (normalizeR axis)

/-- The orientation `create_grass_instance` assigns (as a rotation): the
alignment `z_axis.rotation_difference(normal)`, left-composed (when
`random_rotation` is set) with the rotation by `2π·u` about the world
normal: `rotation_quat = random_quat @ rotation_quat`. -/
noncomputable def orientationQuat (normal : Vec3R) (random_rotation : Bool)
    (u : ℝ) : QuatR :=
  let rq := rotation_difference ⟨0, 0, 1⟩ normal
  if random_rotation then qmulR (matrixRotationQuat (2 * Real.pi * u) normal) rq
  else rq

/-- Modelled from the claim's words: the same two factors composed so that
the align-to-normal rotation is the final applied rotation (the claim's
stated order). -/
noncomputable def claimedOrientationQuat (normal : Vec3R) (random_rotation : Bool)
    (u : ℝ) : QuatR :=
  let rq := rotation_difference ⟨0, 0, 1⟩ normal
  if random_rotation then qmulR rq (matrixRotationQuat (2 * Real.pi * u) normal)
  else rq

/-- mathutils `rotation_difference` from the canonical up axis to a unit,
non-antiparallel normal is the shortest-arc alignment: a unit quaternion
with nonnegative scalar part whose axis is a nonnegative multiple of
`z × n`, and which rotates the up axis onto the normal. -/
theorem rotation_difference_spec {n : Vec3R} (hn : lengthSqR n = 1)
    (hz : n.z ≠ -1) :
    rotR (rotation_difference ⟨0, 0, 1⟩ n) ⟨0, 0, 1⟩ = n ∧
    qnormSqR (rotation_difference ⟨0, 0, 1⟩ n) = 1 ∧
    0 ≤ (rotation_difference ⟨0, 0, 1⟩ n).w ∧
    ∃ k : ℝ, 0 ≤ k ∧
      (⟨(rotation_difference ⟨0, 0, 1⟩ n).x, (rotation_difference ⟨0, 0, 1⟩ n).y,
        (rotation_difference ⟨0, 0, 1⟩ n).z⟩ : Vec3R)
        = k • crossR ⟨0, 0, 1⟩ n := by
  have hzu : lengthSqR ⟨0, 0, 1⟩ = 1 := by norm_num [lengthSqR]
  have hnz : normalizeR ⟨0, 0, 1⟩ = ⟨0, 0, 1⟩ := normalizeR_of_unit hzu
  have hnn : normalizeR n = n := normalizeR_of_unit hn
  have hdot : Vec3R.dot ⟨0, 0, 1⟩ n = n.z := by simp [Vec3R.dot]
  have hcross : crossR ⟨0, 0, 1⟩ n = ⟨-n.y, n.x, 0⟩ := by
    ext <;> simp [crossR]
  by_cases hax : (⟨-n.y, n.x, 0⟩ : Vec3R) = ⟨0, 0, 0⟩
  · -- degenerate: n is parallel to the up axis, and not antiparallel
    have hx0 : n.x = 0 := by
      have := congrArg Vec3R.y hax
      simpa using this
    have hy0 : n.y = 0 := by
      have := congrArg Vec3R.x hax
      simpa using this
    have hz1 : n.z = 1 := by
      have hzz : (n.z - 1) * (n.z + 1) = 0 := by
        rw [lengthSqR] at hn
        nlinarith [hn]
      rcases mul_eq_zero.mp hzz with h | h
      · linarith
      · exact absurd (by linarith) hz
    have hq : rotation_difference ⟨0, 0, 1⟩ n = ⟨1, 0, 0, 0⟩ := by
      rw [rotation_difference]
      rw [hnz, hnn, hcross, if_pos hax, hdot, if_pos (by rw [hz1]; norm_num)]
    rw [hq]
    refine ⟨?_, by norm_num [qnormSqR], by norm_num, 0, le_refl 0, ?_⟩
    · rw [show (⟨1, 0, 0, 0⟩ : QuatR) = ⟨1, 0, 0, 0⟩ from rfl]
      have := rotR_wab 1 0 0 1
      rw [this]
      ext <;> simp [hx0, hy0, hz1]
    · rw [hcross]
      ext <;> simp
  · -- main branch: nonzero cross product
    have hxyne : ¬(n.x = 0 ∧ n.y = 0) := by
      rintro ⟨hx, hy⟩
      exact hax (by ext <;> simp [hx, hy])
    have hpos : 0 < n.x ^ 2 + n.y ^ 2 := by
      rcases eq_or_ne n.x 0 with hx | hx
      · rcases eq_or_ne n.y 0 with hy | hy
        · exact absurd ⟨hx, hy⟩ hxyne
        · positivity
      · positivity
    have hc2 : n.z ^ 2 = 1 - (n.x ^ 2 + n.y ^ 2) := by
      rw [lengthSqR] at hn
      nlinarith [hn]
    have hcleft : -1 ≤ n.z := by nlinarith
    have hcright : n.z ≤ 1 := by nlinarith
    have hL : lengthSqR ⟨-n.y, n.x, 0⟩ = n.x ^ 2 + n.y ^ 2 := by
      simp [lengthSqR]
      ring
    set σ := normR ⟨-n.y, n.x, 0⟩ with hσdef
    have hσsq : σ ^ 2 = n.x ^ 2 + n.y ^ 2 := by
      rw [hσdef, normR, hL, Real.sq_sqrt hpos.le]
    have hσpos : 0 < σ := by
      rw [hσdef, normR, hL]
      exact Real.sqrt_pos.mpr hpos
    have hσne : σ ≠ 0 := ne_of_gt hσpos
    have haxis : normalizeR ⟨-n.y, n.x, 0⟩
        = ⟨1 / σ * -n.y, 1 / σ * n.x, 0⟩ := by
      rw [normalizeR, if_neg (by rw [← hσdef]; exact hσne)]
      rw [← hσdef]
      ext <;> simp
    set φ := Real.arccos n.z with hφdef
    have hφ0 : 0 ≤ φ := Real.arccos_nonneg n.z
    have hφπ : φ ≤ Real.pi := Real.arccos_le_pi n.z
    have hcos : Real.cos φ = n.z := Real.cos_arccos hcleft hcright
    have hsin : Real.sin φ = Real.sqrt (1 - n.z ^ 2) := Real.sin_arccos n.z
    set w := Real.cos (φ / 2) with hwdef
    set s := Real.sin (φ / 2) with hsdef
    have hw0 : 0 ≤ w := by
      rw [hwdef]
      refine Real.cos_nonneg_of_mem_Icc ⟨by linarith, by linarith⟩
    have hs0 : 0 ≤ s := by
      rw [hsdef]
      refine Real.sin_nonneg_of_nonneg_of_le_pi (by linarith) ?_
      nlinarith [Real.pi_pos]
    have h1 : s ^ 2 + w ^ 2 = 1 := by
      rw [hsdef, hwdef]
      exact Real.sin_sq_add_cos_sq _
    have h3 : 2 * s * w = σ := by
      have h3a : Real.sin (2 * (φ / 2)) = 2 * s * w := by
        rw [Real.sin_two_mul, hsdef, hwdef]
      have h3b : Real.sin φ = 2 * s * w := by
        rw [← h3a]
        congr 1
        ring
      rw [← h3b, hsin]
      have h1c : 1 - n.z ^ 2 = n.x ^ 2 + n.y ^ 2 := by linarith
      rw [h1c, hσdef, normR, hL]
    have h2 : w ^ 2 - s ^ 2 = n.z := by
      have h2a : Real.cos (2 * (φ / 2)) = 2 * w ^ 2 - 1 := by
        rw [Real.cos_two_mul, hwdef]
      have h2b : Real.cos φ = 2 * w ^ 2 - 1 := by
        rw [← h2a]
        congr 1
        ring
      rw [hcos] at h2b
      linarith
    have hq : rotation_difference ⟨0, 0, 1⟩ n
        = ⟨w, s * (1 / σ * -n.y), s * (1 / σ * n.x), 0⟩ := by
      rw [rotation_difference]
      rw [hnz, hnn, hcross, if_neg hax, hdot, haxis, axisAngleQuatR]
      rw [← hφdef, ← hwdef, ← hsdef]
      ext <;> simp
    have hab : (s * (1 / σ * -n.y)) ^ 2 + (s * (1 / σ * n.x)) ^ 2 = s ^ 2 := by
      have he : (s * (1 / σ * -n.y)) ^ 2 + (s * (1 / σ * n.x)) ^ 2
          = s ^ 2 * ((n.x ^ 2 + n.y ^ 2) / σ ^ 2) := by
        ring
      rw [he, ← hσsq, div_self (pow_ne_zero 2 hσne), mul_one]
    rw [hq]
    refine ⟨?_, ?_, hw0, s / σ, div_nonneg hs0 hσpos.le, ?_⟩
    · rw [rotR_wab]
      ext
      · show 2 * w * (s * (1 / σ * n.x)) * 1 = n.x
        have he : 2 * w * (s * (1 / σ * n.x)) * 1 = 2 * s * w * n.x / σ := by
          ring
        rw [he, h3, mul_comm, mul_div_assoc, div_self hσne, mul_one]
      · show -(2 * w * (s * (1 / σ * -n.y)) * 1) = n.y
        have he : -(2 * w * (s * (1 / σ * -n.y)) * 1) = 2 * s * w * n.y / σ := by
          ring
        rw [he, h3, mul_comm, mul_div_assoc, div_self hσne, mul_one]
      · show (w ^ 2 - (s * (1 / σ * -n.y)) ^ 2 - (s * (1 / σ * n.x)) ^ 2) * 1 = n.z
        have he : (w ^ 2 - (s * (1 / σ * -n.y)) ^ 2 - (s * (1 / σ * n.x)) ^ 2) * 1
            = w ^ 2 - ((s * (1 / σ * -n.y)) ^ 2 + (s * (1 / σ * n.x)) ^ 2) := by
          ring
        rw [he, hab]
        exact h2
    · show w * w + s * (1 / σ * -n.y) * (s * (1 / σ * -n.y))
          + s * (1 / σ * n.x) * (s * (1 / σ * n.x)) + 0 * 0 = 1
      have he : w * w + s * (1 / σ * -n.y) * (s * (1 / σ * -n.y))
          + s * (1 / σ * n.x) * (s * (1 / σ * n.x)) + 0 * 0
          = w ^ 2 + ((s * (1 / σ * -n.y)) ^ 2 + (s * (1 / σ * n.x)) ^ 2) := by
        ring
      rw [he, hab]
      linarith
    · rw [hcross]
      ext <;> simp <;> ring

/-- The random rotation about the world normal fixes the world normal. -/
theorem matrixRotationQuat_fix {n : Vec3R} (hn : lengthSqR n = 1) (θ : ℝ) :
    rotR (matrixRotationQuat θ n) n = n := by
  rw [matrixRotationQuat, normalizeR_of_unit hn, axisAngleQuatR,
    rotR_parallel, hn, mul_one, Real.cos_sq_add_sin_sq]
  ext <;> simp

/-- Claim C7, amended: the alignment factor
`z_axis.rotation_difference(normal)` is the shortest-arc rotation taking the
up axis to the world normal (unit quaternion, nonnegative scalar part, axis
a nonnegative multiple of `z × n`, mapping `z` to `n`); with
`random_rotation` set, the code's orientation is that alignment composed
with the rotation by the uniformly drawn angle `2π·u` about the world
normal, with the ALIGNMENT applied first and the random rotation applied
last (`random_quat @ rotation_quat`), and the composite still maps the up
axis onto the normal. -/
theorem claim_C7_amended (n : Vec3R) (rr : Bool) (u : ℝ)
    (hn : lengthSqR n = 1) (hz : n.z ≠ -1) :
    rotR (orientationQuat n rr u) ⟨0, 0, 1⟩ = n ∧
    qnormSqR (rotation_difference ⟨0, 0, 1⟩ n) = 1 ∧
    0 ≤ (rotation_difference ⟨0, 0, 1⟩ n).w ∧
    (∃ k : ℝ, 0 ≤ k ∧
      (⟨(rotation_difference ⟨0, 0, 1⟩ n).x, (rotation_difference ⟨0, 0, 1⟩ n).y,
        (rotation_difference ⟨0, 0, 1⟩ n).z⟩ : Vec3R)
        = k • crossR ⟨0, 0, 1⟩ n) ∧
    rotR (rotation_difference ⟨0, 0, 1⟩ n) ⟨0, 0, 1⟩ = n ∧
    (rr = true → orientationQuat n rr u
      = qmulR (matrixRotationQuat (2 * Real.pi * u) n)
          (rotation_difference ⟨0, 0, 1⟩ n)) := by
  obtain ⟨hrot, hunit, hw, hk⟩ := rotation_difference_spec hn hz
  refine ⟨?_, hunit, hw, hk, hrot, ?_⟩
  · rw [orientationQuat]
    cases rr with
    | false => exact hrot
    | true =>
      rw [if_pos rfl, rotR_mul, hrot]
      exact matrixRotationQuat_fix hn _
  · intro hrr
    rw [orientationQuat, if_pos hrr]

/-- Claim C7 witness: the amended statement at the concrete normal
`(0,0,1)` without random rotation. -/
theorem claim_C7_witness :
    rotR (orientationQuat ⟨0, 0, 1⟩ false 0) ⟨0, 0, 1⟩ = ⟨0, 0, 1⟩ ∧
    qnormSqR (rotation_difference ⟨0, 0, 1⟩ ⟨0, 0, 1⟩) = 1 ∧
    0 ≤ (rotation_difference ⟨0, 0, 1⟩ ⟨0, 0, 1⟩).w ∧
    (∃ k : ℝ, 0 ≤ k ∧
      (⟨(rotation_difference ⟨0, 0, 1⟩ (⟨0, 0, 1⟩ : Vec3R)).x,
        (rotation_difference ⟨0, 0, 1⟩ (⟨0, 0, 1⟩ : Vec3R)).y,
        (rotation_difference ⟨0, 0, 1⟩ (⟨0, 0, 1⟩ : Vec3R)).z⟩ : Vec3R)
        = k • crossR ⟨0, 0, 1⟩ ⟨0, 0, 1⟩) ∧
    rotR (rotation_difference ⟨0, 0, 1⟩ ⟨0, 0, 1⟩) ⟨0, 0, 1⟩ = ⟨0, 0, 1⟩ ∧
    (false = true → orientationQuat ⟨0, 0, 1⟩ false 0
      = qmulR (matrixRotationQuat (2 * Real.pi * 0) ⟨0, 0, 1⟩)
          (rotation_difference ⟨0, 0, 1⟩ ⟨0, 0, 1⟩)) :=
  claim_C7_amended ⟨0, 0, 1⟩ false 0 (by norm_num [lengthSqR]) (by norm_num)

/-- Claim C7, counterexample to the claim as stated: for the world normal
`(1,0,0)` and rotation draw `u = 1/2` (angle π), the code's orientation
(`random_quat @ rotation_quat`, random-about-normal applied last) still maps
the up axis onto the normal, whereas the claim's composition (align-to-normal
applied last) maps the up axis to `(-1,0,0) ≠ (1,0,0)` — so the align
rotation is not the final applied rotation. -/
theorem claim_C7_counterexample :
    rotR (orientationQuat ⟨1, 0, 0⟩ true (1 / 2)) ⟨0, 0, 1⟩ = ⟨1, 0, 0⟩ ∧
    rotR (claimedOrientationQuat ⟨1, 0, 0⟩ true (1 / 2)) ⟨0, 0, 1⟩ = ⟨-1, 0, 0⟩ ∧
    (⟨1, 0, 0⟩ : Vec3R) ≠ ⟨-1, 0, 0⟩ := by
  have h2 : Real.sqrt 2 * Real.sqrt 2 = 2 := Real.mul_self_sqrt (by norm_num)
  have hux : lengthSqR ⟨1, 0, 0⟩ = 1 := by norm_num [lengthSqR]
  have huz : lengthSqR ⟨0, 0, 1⟩ = 1 := by norm_num [lengthSqR]
  have huy : lengthSqR ⟨0, 1, 0⟩ = 1 := by norm_num [lengthSqR]
  have hrd : rotation_difference ⟨0, 0, 1⟩ ⟨1, 0, 0⟩
      = ⟨Real.sqrt 2 / 2, 0, Real.sqrt 2 / 2, 0⟩ := by
    rw [rotation_difference]
    rw [normalizeR_of_unit huz, normalizeR_of_unit hux]
    have hcr : crossR ⟨0, 0, 1⟩ ⟨1, 0, 0⟩ = ⟨0, 1, 0⟩ := by
      ext <;> norm_num [crossR]
    rw [hcr, if_neg (by
      intro h
      have := congrArg Vec3R.y h
      norm_num at this)]
    have hdt : Vec3R.dot ⟨0, 0, 1⟩ ⟨1, 0, 0⟩ = 0 := by norm_num [Vec3R.dot]
    rw [hdt, Real.arccos_zero, normalizeR_of_unit huy, axisAngleQuatR]
    have hhalf : Real.pi / 2 / 2 = Real.pi / 4 := by ring
    rw [hhalf, Real.cos_pi_div_four, Real.sin_pi_div_four]
    ext <;> norm_num
  have hmq : matrixRotationQuat (2 * Real.pi * (1 / 2)) ⟨1, 0, 0⟩
      = ⟨0, 1, 0, 0⟩ := by
    rw [matrixRotationQuat, normalizeR_of_unit hux, axisAngleQuatR]
    have hang : 2 * Real.pi * (1 / 2) / 2 = Real.pi / 2 := by ring
    rw [hang, Real.cos_pi_div_two, Real.sin_pi_div_two]
    ext <;> norm_num
  have halignz : rotR ⟨Real.sqrt 2 / 2, 0, Real.sqrt 2 / 2, 0⟩ ⟨0, 0, 1⟩
      = ⟨1, 0, 0⟩ := by
    have := rotR_wab (Real.sqrt 2 / 2) 0 (Real.sqrt 2 / 2) 1
    rw [this]
    ext <;> simp <;> nlinarith [h2]
  have hmqx : rotR ⟨0, 1, 0, 0⟩ ⟨1, 0, 0⟩ = ⟨1, 0, 0⟩ := by
    ext <;> simp [rotR, qmulR, qconjR]
  have hmqz : rotR ⟨0, 1, 0, 0⟩ ⟨0, 0, 1⟩ = ⟨0, 0, -1⟩ := by
    ext <;> simp [rotR, qmulR, qconjR]
  have halignmz : rotR ⟨Real.sqrt 2 / 2, 0, Real.sqrt 2 / 2, 0⟩ ⟨0, 0, -1⟩
      = ⟨-1, 0, 0⟩ := by
    have := rotR_wab (Real.sqrt 2 / 2) 0 (Real.sqrt 2 / 2) (-1)
    rw [this]
    ext <;> simp <;> nlinarith [h2]
  refine ⟨?_, ?_, ?_⟩
  · rw [orientationQuat, if_pos rfl, hrd, hmq, rotR_mul, halignz, hmqx]
  · rw [claimedOrientationQuat, if_pos rfl, hrd, hmq, rotR_mul, hmqz, halignmz]
  · intro h
    have := congrArg Vec3R.x h
    norm_num at this

end DayZGrass
